import Mathlib

/-!
Verification of the release-orchestration core of `cargo-release`
(`src/main.rs`, with `src/git.rs` and `src/cargo.rs` as collaborators).

The development shallowly embeds the Rust source:
* semver versions (`semver::Version`, build metadata omitted — it is never
  consulted by the orchestration logic under verification),
* the version decider `TargetVersion::bump`,
* the release-plan builder `PackageRelease::load`,
* the dependent reconciler `update_dependent_versions`,
* the workspace topological sorter `sort_workspace` / `sort_workspace_inner`,
* the 7-phase pipeline `release_packages`, modelled as a function from an
  environment of collaborator responses to an exit code together with a
  trace of collaborator invocations.

Modules of the repository that are not present under `src/` (`cmd.rs`,
`config.rs`, `version.rs`, `replace.rs`, `shell.rs`) are modelled from the
specification; each such definition carries a doc comment saying so.
-/

namespace CargoRelease

/-- Pre-release identifier, mirroring `semver::Identifier` (used in
`src/main.rs` via `semver::Identifier::AlphaNumeric`). -/
inductive Identifier where
  | numeric (n : Nat)
  | alphaNumeric (s : String)
deriving DecidableEq, Repr

/-- Semantic version, mirroring `semver::Version` as used by `src/main.rs`.
Build metadata is omitted: the orchestration core never inspects it. -/
structure SemVer where
  major : Nat
  minor : Nat
  patch : Nat
  pre : List Identifier
deriving DecidableEq, Repr

/-- Total comparison on strings (byte-lexicographic in the Rust semver
library; here the lexicographic order on `String`). -/
def strCompare (a b : String) : Ordering :=
  if a < b then .lt else if a = b then .eq else .gt

/-- Comparison of pre-release identifiers, per the semver precedence rules
implemented by the `semver` crate: numeric identifiers compare numerically
and have lower precedence than alphanumeric ones, which compare
lexicographically. -/
def identCompare : Identifier → Identifier → Ordering
  | .numeric m, .numeric n => compare m n
  | .numeric _, .alphaNumeric _ => .lt
  | .alphaNumeric _, .numeric _ => .gt
  | .alphaNumeric s, .alphaNumeric t => strCompare s t

/-- Comparison of pre-release identifier lists: element-wise, a strict
prefix having lower precedence. -/
def preCompare : List Identifier → List Identifier → Ordering
  | [], [] => .eq
  | [], _ :: _ => .lt
  | _ :: _, [] => .gt
  | a :: as_, b :: bs =>
    match identCompare a b with
    | .eq => preCompare as_ bs
    | o => o

/-- Ordering of two pre-release identifier lists in version precedence:
a release (empty list) has higher precedence than any pre-release. -/
def preOrder : List Identifier → List Identifier → Ordering
  | [], [] => .eq
  | [], _ :: _ => .gt
  | _ :: _, [] => .lt
  | a, b => preCompare a b

/-- Semver precedence, mirroring `Ord for semver::Version`: compare
major, minor, patch; then a release (empty `pre`) has higher precedence
than any pre-release of the same triple, and pre-release lists compare
per `preCompare`. -/
def semverCompare (a b : SemVer) : Ordering :=
  (compare a.major b.major).then
    ((compare a.minor b.minor).then
      ((compare a.patch b.patch).then (preOrder a.pre b.pre)))

/-- The strict order `<` on semver versions used by the Rust source. -/
def semverLt (a b : SemVer) : Prop := semverCompare a b = .lt

instance (a b : SemVer) : Decidable (semverLt a b) :=
  inferInstanceAs (Decidable (semverCompare a b = .lt))

/-- Mirror of `semver::Version::is_prerelease`: a version is a pre-release iff its
pre-release identifier list is non-empty. -/
def SemVer.is_prerelease (v : SemVer) : Bool := !v.pre.isEmpty

/-- Mirror of `semver::Version::increment_patch`: bump the patch number and clear
the pre-release identifiers. -/
def SemVer.increment_patch (v : SemVer) : SemVer :=
  { major := v.major, minor := v.minor, patch := v.patch + 1, pre := [] }

/-- Rendering of an identifier, as in `semver`'s `Display`. -/
def identToString : Identifier → String
  | .numeric n => toString n
  | .alphaNumeric s => s

/-- Rendering of a version, as in `semver`'s `Display` (build metadata
omitted). This stands for the `version_string` field that `main.rs` caches
next to each `semver::Version`. -/
def semverToString (v : SemVer) : String :=
  toString v.major ++ "." ++ toString v.minor ++ "." ++ toString v.patch ++
    (if v.pre.isEmpty then ""
     else "-" ++ String.intercalate "." (v.pre.map identToString))

/-! ### Errors and the version decider (`TargetVersion::bump`) -/

/-- The fatal-error tier of `src/error.rs` (the module itself is not under
`src/`; the variants are the ones constructed by the code under
verification). -/
inductive FatalError where
  | unsupportedVersionReq (msg : String)
  | dependencyVersionConflict
  | gitError
  | publishTimeoutError
  | other (tag : String)
deriving DecidableEq, Repr

/-- The named bump levels accepted by the CLI (`version::BumpLevel`; the
module `src/version.rs` is not under `src/`, but the variant names are
listed in `main.rs`'s CLI documentation). -/
inductive BumpLevel where
  | major | minor | patch | release | rc | beta | alpha
deriving DecidableEq, Repr

/-- A bump-level policy: the concrete increment rule of
`BumpLevel::bump_version` from `src/version.rs`, which is absent from
`src/`. Modelled from the spec: the decider "delegates the concrete
increment rule to an external bump-level policy"; the policy reports
`none` when no change is needed. It is kept as an explicit parameter. -/
def BumpPolicy : Type :=
  BumpLevel → SemVer → Option String → Except FatalError (Option SemVer)

/-- The type `TargetVersion` from `src/main.rs`: a relative bump level or an
absolute target version. -/
inductive TargetVersion where
  | relative (level : BumpLevel)
  | absolute (version : SemVer)

/-- Mirror of `TargetVersion::bump` (`src/main.rs` lines 1104-1138). The relative
arm delegates to the external bump-level policy; the absolute arm returns
the target if it is strictly greater than `current`, `none` if equal, and
fails with `UnsupportedVersionReq` otherwise. -/
def TargetVersion.bump (policy : BumpPolicy) (t : TargetVersion)
    (current : SemVer) (metadata : Option String) :
    Except FatalError (Option SemVer) :=
  match t with
  | .relative level => policy level current metadata
  | .absolute version =>
    if semverLt current version then .ok (some version)
    else if current = version then .ok none
    else .error (.unsupportedVersionReq
      "Cannot release version smaller than current one")

/-! ### Configuration, release plans (`PackageRelease::load`) -/

/-- The five dependent-version policies (`config::DependentVersion`). -/
inductive DependentVersion where
  | Ignore | Warn | Error | Fix | Upgrade
deriving DecidableEq, Repr

/-- A version requirement on a dependency. The matching semantics live in
the external `semver` library (`VersionReq::matches`), kept abstract as a
predicate, together with its textual rendering. -/
structure VersionReq where
  text : String
  matchesVersion : SemVer → Bool

/-- The resolved per-package (or workspace) configuration snapshot: the
fields of `config::Config` that `src/main.rs` reads. Layered resolution
lives in `config.rs`, which is absent from `src/`; this model takes the
already-resolved snapshot as input. -/
structure Config where
  disable_release : Bool := false
  disable_publish : Bool := false
  disable_tag : Bool := false
  disable_push : Bool := false
  no_dev_version : Bool := false
  dev_version_ext : String := "alpha"
  sign_commit : Bool := false
  sign_tag : Bool := false
  push_remote : String := "origin"
  registry : Option String := none
  dependent_version : DependentVersion := .Upgrade
  tag_pref : Bool → String := fun _ => ""
  tag_name : String := "\x7b\x7bprefix\x7d\x7dv\x7b\x7bversion\x7d\x7d"
  tag_message : String := "(cargo-release) \x7b\x7bcrate_name\x7d\x7d version \x7b\x7bversion\x7d\x7d"
  pre_release_commit_message : String := "(cargo-release) version \x7b\x7bversion\x7d\x7d"
  post_release_commit_message : String := "(cargo-release) start next development iteration \x7b\x7bversion\x7d\x7d"
  pre_release_replacements : List String := []
  post_release_replacements : List String := []
  pre_release_hook : Option (List String) := none
  push_options : List String := []
  enable_features : List String := []
  enable_all_features : Bool := false
  consolidate_commits : Bool := false
  consolidate_pushes : Bool := false

/-- The type `Features` from `src/main.rs`: which feature flags `cargo publish`
receives. -/
inductive Features where
  | None
  | Selective (features : List String)
  | All
deriving DecidableEq, Repr

/-- A same-workspace dependent of the package being released
(`Dependency` in `src/main.rs`): the dependent package and its version
requirement on the released package. Paths are abstract identifiers. -/
structure Dependency where
  pkgName : String
  pkgManifestPath : Nat
  req : VersionReq

/-- The per-package release plan (`PackageRelease` in `src/main.rs`).
The `crate_excludes`/`custom_ignore` fields are omitted: they only filter
the purely informational changed-files warning. The cached
`version_string`s are represented by `semverToString` of the versions. -/
structure PackageRelease where
  name : String
  manifest_path : Nat
  package_path : Nat
  config : Config
  prev_version : SemVer
  prev_tag : String
  version : Option SemVer
  tag : Option String
  post_version : Option SemVer
  dependents : List Dependency
  features : Features

/-- The template context of `replace::Template` (`src/replace.rs`, absent
from `src/`). Modelled from the spec: named optional placeholders
`prev_version, version, next_version, crate_name, tag_name, pref,
date` (the last named `pref` here; in the source it is the tag-prefix placeholder). -/
structure Template where
  prev_version : Option String := none
  version : Option String := none
  next_version : Option String := none
  crate_name : Option String := none
  tag_name : Option String := none
  pref : Option String := none
  date : Option String := none

/-- A template renderer (`Template::render` from `src/replace.rs`, absent
from `src/`). Modelled from the spec: a pure function of the template
text and the context; unknown placeholders pass through literally. Kept
abstract as a parameter. -/
def Renderer : Type := String → Template → String

/-- The workspace metadata a single package's plan construction consumes:
the other workspace packages with their declared dependencies
(`cargo_metadata` snapshot as read by `find_dependents`). -/
structure WsPackage where
  name : String
  manifest_path : Nat
  isMember : Bool
  dependencies : List (String × VersionReq)

/-- Mirror of `find_dependents` (`src/main.rs` lines 28-42): every workspace member
declaring a dependency named like the released package, paired with that
dependency's requirement. -/
def find_dependents (ws_pkgs : List WsPackage) (pkgName : String) :
    List Dependency :=
  ws_pkgs.filterMap fun p =>
    if p.isMember then
      (p.dependencies.find? (fun d => d.1 == pkgName)).map
        (fun d => { pkgName := p.name, pkgManifestPath := p.manifest_path,
                    req := d.2 })
    else none

/-- The command-line options consumed by the orchestration core
(`ReleaseOpt` and `ConfigArgs` in `src/main.rs`, restricted to the fields
the pipeline and plan builder read; `args.config.token` is flattened in). -/
structure ReleaseOpt where
  level_or_version : TargetVersion := .relative .release
  metadata : Option String := none
  dry_run : Bool := false
  no_confirm : Bool := false
  prev_tag_name : Option String := none
  token : Option String := none

/-- Mirror of `PackageRelease::load` (`src/main.rs` lines 106-265), over
pre-resolved inputs: `config` is the layered configuration snapshot after
the `args`-level update (resolution itself lives in `config.rs`, absent
from `src/`); `cargo_publish_flag` is the manifest's `package.publish`
value read by `cargo::parse_cargo_config`; `render` is the template
collaborator; `policy` the external bump-level policy. Tag rendering,
version decision, dependent enumeration and the post-release version
follow the source line by line. -/
def PackageRelease.load (policy : BumpPolicy) (render : Renderer)
    (args : ReleaseOpt) (git_root : Nat) (ws_pkgs : List WsPackage)
    (pkgName : String) (manifest_path package_path : Nat)
    (pkg_version : SemVer) (resolved_config : Config)
    (cargo_publish_flag : Bool) :
    Except FatalError (Option PackageRelease) := do
  let config : Config :=
    if !cargo_publish_flag then { resolved_config with disable_publish := true }
    else resolved_config
  if config.disable_release then
    return none
  let is_root := git_root == package_path
  let prev_version := pkg_version
  let prev_tag :=
    match args.prev_tag_name with
    | some prev_tag => prev_tag
    | none =>
      let template : Template :=
        { prev_version := some (semverToString prev_version),
          version := some (semverToString prev_version),
          crate_name := some pkgName }
      let tag_pref := render (config.tag_pref is_root) template
      render config.tag_name { template with pref := some tag_pref }
  let version ← args.level_or_version.bump policy prev_version args.metadata
  let is_pre_release := (version.map SemVer.is_prerelease).getD false
  let dependents :=
    if version.isSome then find_dependents ws_pkgs pkgName else []
  let base := version.getD prev_version
  let tag :=
    if config.disable_tag then none
    else
      let template : Template :=
        { prev_version := some (semverToString prev_version),
          version := some (semverToString base),
          crate_name := some pkgName }
      let tag_pref := render (config.tag_pref is_root) template
      some (render config.tag_name { template with pref := some tag_pref })
  let post_version :=
    if !is_pre_release && !config.no_dev_version then
      let post := base.increment_patch
      some { post with
             pre := post.pre ++ [Identifier.alphaNumeric config.dev_version_ext] }
    else
      none
  let features :=
    if config.enable_all_features then Features.All
    else if config.enable_features.isEmpty then Features.None
    else Features.Selective config.enable_features
  return some
    { name := pkgName, manifest_path, package_path, config,
      prev_version, prev_tag, version, tag, post_version, dependents,
      features }

/-! ### Collaborator-call traces -/

/-- One collaborator invocation performed by the pipeline. Mutating calls
record the `dryRun` flag they were handed; purely informational log lines
are not traced, except the dependent-incompatibility warning (which the
`Warn`/`Error` policies are specified to surface). -/
inductive Effect where
  | gitVersion
  | isDirty (path : Nat)
  | changedFiles (path : Nat) (since : String)
  | fetch (path : Nat) (remote : String) (branch : String)
  | isBehindRemote (path : Nat) (remote : String) (branch : String)
  | confirmPrompt (prompt : String)
  | warnIncompatible (dependent : String) (pkg : String) (req : String)
      (version : String)
  | setPackageVersion (manifest : Nat) (version : String)
  | setDependencyVersion (manifest : Nat) (depName : String) (req : String)
  | updateLock (manifest : Nat)
  | fileReplacements (path : Nat) (prerelease : Bool) (dryRun : Bool)
  | hook (path : Nat) (dryRun : Bool)
  | commitAll (path : Nat) (msg : String) (sign : Bool) (dryRun : Bool)
  | publish (dryRun : Bool) (manifest : Nat) (features : Features)
      (registry : Option String) (token : Option String)
  | waitForPublish (crate : String) (version : String)
  | graceSleep
  | tagCreate (path : Nat) (name : String) (msg : String) (sign : Bool)
      (dryRun : Bool)
  | pushTag (path : Nat) (remote : String) (tagName : String) (dryRun : Bool)
  | push (path : Nat) (remote : String) (options : List String) (dryRun : Bool)
deriving DecidableEq, Repr

/-- Which traced calls mutate state. Mutating calls handed `dryRun = true`
are logged no-ops (spec §4.5), hence not mutations; queries, prompts and
warnings never mutate. The pre-release hook is always really executed. -/
def Effect.isMutation : Effect → Bool
  | .setPackageVersion _ _ => true
  | .setDependencyVersion _ _ _ => true
  | .updateLock _ => true
  | .fileReplacements _ _ dryRun => !dryRun
  | .hook _ _ => true
  | .commitAll _ _ _ dryRun => !dryRun
  | .publish dryRun _ _ _ _ => !dryRun
  | .tagCreate _ _ _ _ dryRun => !dryRun
  | .pushTag _ _ _ dryRun => !dryRun
  | .push _ _ _ dryRun => !dryRun
  | _ => false

/-- The environment of collaborator responses the pipeline runs against:
results of version-control and registry commands, the interactive
confirmation answer, the template renderer and the memoized date. Each
`Except` captures that the underlying process invocation can itself fail
fatally. -/
structure Env where
  gitVersionOk : Bool
  isDirty : Nat → Except FatalError Bool
  changedFiles : Nat → String → Except FatalError (Option (List Nat))
  currentBranch : Except FatalError String
  fetchOk : Except FatalError Unit
  isBehindRemote : Except FatalError Bool
  confirm : Bool
  setPackageVersionOk : Nat → Except FatalError Unit
  setDependencyVersionOk : Nat → Except FatalError Unit
  updateLockOk : Nat → Except FatalError Unit
  replaceOk : Nat → Except FatalError Unit
  hookOk : Nat → Except FatalError Bool
  commitOk : Nat → String → Except FatalError Bool
  publishOk : Nat → Except FatalError Bool
  waitForPublishOk : String → String → Except FatalError Unit
  tagOk : String → Except FatalError Bool
  pushTagOk : String → Except FatalError Bool
  pushOk : Nat → Except FatalError Bool
  render : Renderer
  now : String

/-- Mirror of `git::commit_all` (`src/git.rs`), built on `cmd::call_on_path`;
`cmd.rs` is absent from `src/`, so its dry-run behaviour is modelled from
the spec: with `dry_run` the mutating call is a logged no-op returning
success. -/
def git_commit_all (env : Env) (dir : Nat) (msg : String) (sign : Bool)
    (dry_run : Bool) : Except FatalError (Bool × List Effect) :=
  if dry_run then .ok (true, [.commitAll dir msg sign dry_run])
  else do
    let ok ← env.commitOk dir msg
    .ok (ok, [.commitAll dir msg sign dry_run])

/-- Mirror of `git::tag` (`src/git.rs`); dry-run no-op modelled from the spec as for
`git_commit_all`. -/
def git_tag (env : Env) (dir : Nat) (name : String) (msg : String)
    (sign : Bool) (dry_run : Bool) : Except FatalError (Bool × List Effect) :=
  if dry_run then .ok (true, [.tagCreate dir name msg sign dry_run])
  else do
    let ok ← env.tagOk name
    .ok (ok, [.tagCreate dir name msg sign dry_run])

/-- Mirror of `git::push_tag` (`src/git.rs`); dry-run no-op modelled from the spec. -/
def git_push_tag (env : Env) (dir : Nat) (remote : String) (tagName : String)
    (dry_run : Bool) : Except FatalError (Bool × List Effect) :=
  if dry_run then .ok (true, [.pushTag dir remote tagName dry_run])
  else do
    let ok ← env.pushTagOk tagName
    .ok (ok, [.pushTag dir remote tagName dry_run])

/-- Mirror of `git::push` with push options, as invoked by `src/main.rs` (the
`git.rs` snapshot under `src/` predates the options parameter; the
contract is the spec's `push(path, remote, options)`); dry-run no-op
modelled from the spec. -/
def git_push (env : Env) (dir : Nat) (remote : String)
    (options : List String) (dry_run : Bool) :
    Except FatalError (Bool × List Effect) :=
  if dry_run then .ok (true, [.push dir remote options dry_run])
  else do
    let ok ← env.pushOk dir
    .ok (ok, [.push dir remote options dry_run])

/-- Mirror of `cargo::publish` as invoked by `src/main.rs` (registry and token
parameters; the `cargo.rs` snapshot under `src/` predates them); built on
`cmd::call`, whose dry-run no-op is modelled from the spec. -/
def cargo_publish (env : Env) (dry_run : Bool) (manifest_path : Nat)
    (features : Features) (registry : Option String) (token : Option String) :
    Except FatalError (Bool × List Effect) :=
  if dry_run then
    .ok (true, [.publish dry_run manifest_path features registry token])
  else do
    let ok ← env.publishOk manifest_path
    .ok (ok, [.publish dry_run manifest_path features registry token])

/-- Mirror of `cargo::wait_for_publish` (`src/cargo.rs` lines 76-116): with
`dry_run` the polling loop is skipped entirely; otherwise the bounded
poll either observes the version in the index or fails fatally with
`PublishTimeoutError` — collapsed here into one environment response. -/
def cargo_wait_for_publish (env : Env) (name : String) (version : String)
    (dry_run : Bool) : Except FatalError (Unit × List Effect) :=
  if dry_run then .ok ((), [])
  else do
    let _ ← env.waitForPublishOk name version
    .ok ((), [.waitForPublish name version])

/-- Modelled from the spec: `version::set_requirement` (`src/version.rs`,
absent from `src/`). Per spec §4.4 it computes a corrected requirement
that is satisfied by the new version, preserving the original operator
style as closely as possible; here rendered simply as the new version's
text. -/
def set_requirement (_req : VersionReq) (version : SemVer) :
    Except FatalError (Option String) :=
  .ok (some (semverToString version))

/-- The per-dependent body of `update_dependent_versions` (`src/main.rs`
lines 275-342): dispatch on the five dependent-version policies. Returns
whether this dependent failed under the `Error` policy, plus the trace. -/
def update_dependent_versions_dep (env : Env) (pkg : PackageRelease)
    (version : SemVer) (dry_run : Bool) (dep : Dependency) :
    Except FatalError (Bool × List Effect) :=
  match pkg.config.dependent_version with
  | .Ignore => .ok (false, [])
  | .Warn =>
    if !dep.req.matchesVersion version then
      .ok (false, [.warnIncompatible dep.pkgName pkg.name dep.req.text
        (semverToString version)])
    else .ok (false, [])
  | .Error =>
    if !dep.req.matchesVersion version then
      .ok (true, [.warnIncompatible dep.pkgName pkg.name dep.req.text
        (semverToString version)])
    else .ok (false, [])
  | .Fix =>
    if !dep.req.matchesVersion version then do
      let new_req ← set_requirement dep.req version
      match new_req with
      | some new_req =>
        if !dry_run then do
          let _ ← env.setDependencyVersionOk dep.pkgManifestPath
          .ok (false, [.setDependencyVersion dep.pkgManifestPath pkg.name
            new_req])
        else .ok (false, [])
      | none => .ok (false, [])
    else .ok (false, [])
  | .Upgrade => do
    let new_req ← set_requirement dep.req version
    match new_req with
    | some new_req =>
      if !dry_run then do
        let _ ← env.setDependencyVersionOk dep.pkgManifestPath
        .ok (false, [.setDependencyVersion dep.pkgManifestPath pkg.name
          new_req])
      else .ok (false, [])
    | none => .ok (false, [])

/-- The loop of `update_dependent_versions` over all dependents,
accumulating the `dependents_failed` flag. -/
def update_dependent_versions_loop (env : Env) (pkg : PackageRelease)
    (version : SemVer) (dry_run : Bool) :
    List Dependency → Except FatalError (Bool × List Effect)
  | [] => .ok (false, [])
  | dep :: deps => do
    let (f₁, t₁) ← update_dependent_versions_dep env pkg version dry_run dep
    let (f₂, t₂) ← update_dependent_versions_loop env pkg version dry_run deps
    .ok (f₁ || f₂, t₁ ++ t₂)

/-- Mirror of `update_dependent_versions` (`src/main.rs` lines 268-348): run the
loop over every dependent, then fail once with
`DependencyVersionConflict` iff any dependent failed. -/
def update_dependent_versions (env : Env) (pkg : PackageRelease)
    (version : SemVer) (dry_run : Bool) :
    Except FatalError (Unit × List Effect) := do
  let (failed, t) ←
    update_dependent_versions_loop env pkg version dry_run pkg.dependents
  if failed then .error .dependencyVersionConflict
  else .ok ((), t)

/-! ### The release pipeline (`release_packages`, `src/main.rs` 444-859)

Each phase returns `Except FatalError (Option Nat × List Effect)`:
`some code` models the Rust `return Ok(code)` early exit, `none` means the
pipeline continues; fatal errors model the `?` propagation tier. -/

/-- The dirtiness computation of STEP 0 (`src/main.rs` lines 454-472),
per-package branch: the loop keeps checking every package even after a
dirty one is found. -/
def computeDirtyLoop (env : Env) :
    List PackageRelease → Except FatalError (Bool × List Effect)
  | [] => .ok (false, [])
  | pkg :: pkgs => do
    let d ← env.isDirty pkg.package_path
    let (rest, t) ← computeDirtyLoop env pkgs
    .ok (d || rest, .isDirty pkg.package_path :: t)

/-- The dirtiness computation of STEP 0: one workspace-wide check under
consolidated commits, else one per package. -/
def computeDirty (env : Env) (ws_config : Config) (ws_root : Nat)
    (pkgs : List PackageRelease) : Except FatalError (Bool × List Effect) :=
  if ws_config.consolidate_commits then do
    let d ← env.isDirty ws_root
    .ok (d, [.isDirty ws_root])
  else
    computeDirtyLoop env pkgs

/-- The best-effort changed-files check (`src/main.rs` lines 480-540),
performed for each package with a pending release; its result only feeds
log output (the lock-file exclusion and ignore filtering decide between
two warnings), so only the query itself is traced. -/
def changedFilesLoop (env : Env) :
    List PackageRelease → Except FatalError (List Effect)
  | [] => .ok []
  | pkg :: pkgs =>
    match pkg.version with
    | some _ => do
      let _ ← env.changedFiles pkg.package_path pkg.prev_tag
      let t ← changedFilesLoop env pkgs
      .ok (.changedFiles pkg.package_path pkg.prev_tag :: t)
    | none => changedFilesLoop env pkgs

/-- STEP 0, Preflight (`src/main.rs` lines 452-550): check the
version-control tool, compute dirtiness and hard-abort with 101 unless
dry-run, then the changed-files warnings and the upstream
fetch/behind-remote warning. -/
def stepPreflight (env : Env) (args : ReleaseOpt) (ws_config : Config)
    (ws_root : Nat) (pkgs : List PackageRelease) :
    Except FatalError (Option Nat × List Effect) :=
  if !env.gitVersionOk then .error .gitError
  else do
    let (dirty, t₁) ← computeDirty env ws_config ws_root pkgs
    if dirty && !args.dry_run then
      .ok (some 101, Effect.gitVersion :: t₁)
    else do
      let t₂ ← changedFilesLoop env pkgs
      let branch ← env.currentBranch
      let _ ← env.fetchOk
      let _ ← env.isBehindRemote
      .ok (none, Effect.gitVersion :: t₁ ++ t₂ ++
        [.fetch ws_root ws_config.push_remote branch,
         .isBehindRemote ws_root ws_config.push_remote branch])

/-- The confirmation prompt text (`src/main.rs` lines 554-569). -/
def buildPrompt : List PackageRelease → String
  | [pkg] =>
    "Release " ++ pkg.name ++ " " ++
      semverToString (pkg.version.getD pkg.prev_version) ++ "?"
  | pkgs =>
    "Release\n" ++
      String.join (pkgs.map fun pkg =>
        "  " ++ pkg.name ++ " " ++
          semverToString (pkg.version.getD pkg.prev_version) ++ "\n") ++ "?"

/-- STEP 1, Confirmation (`src/main.rs` lines 552-575): prompt unless
dry-run or `--no-confirm`; a declined confirmation exits cleanly with 0.
`shell::confirm` (`src/shell.rs`, absent from `src/`) is modelled from
the spec as the interactive yes/no answer in the environment. -/
def stepConfirm (env : Env) (args : ReleaseOpt)
    (pkgs : List PackageRelease) : Option Nat × List Effect :=
  if !args.dry_run && !args.no_confirm then
    let prompt := buildPrompt pkgs
    if env.confirm then (none, [.confirmPrompt prompt])
    else (some 0, [.confirmPrompt prompt])
  else (none, [])

/-- The conditional manifest version rewrite of STEP 2
(`src/main.rs` lines 586-589): performed, and traced, only outside
dry-run. -/
def maybeSetVersion (env : Env) (dry_run : Bool) (manifest : Nat)
    (vs : String) : Except FatalError (List Effect) :=
  if !dry_run then
    match env.setPackageVersionOk manifest with
    | .error e => .error e
    | .ok _ => .ok [Effect.setPackageVersion manifest vs]
  else .ok []

/-- The conditional lock refresh of STEP 2 (`src/main.rs` lines
591-595). -/
def maybeUpdateLock (env : Env) (dry_run : Bool) (manifest : Nat) :
    Except FatalError (List Effect) :=
  if !dry_run then
    match env.updateLockOk manifest with
    | .error e => .error e
    | .ok _ => .ok [Effect.updateLock manifest]
  else .ok []

/-- The conditional file replacements of STEPs 2 and 6 (`src/main.rs`
lines 597-615 and 779-788): invoked only when the replacement set is
non-empty; `do_file_replacements` (`src/replace.rs`, absent from `src/`)
receives the dry-run flag and self-limits, per the spec. -/
def maybeReplacements (env : Env) (reps : List String) (path : Nat)
    (prerelease dry_run : Bool) : Except FatalError (List Effect) :=
  if !reps.isEmpty then
    match env.replaceOk path with
    | .error e => .error e
    | .ok _ => .ok [Effect.fileReplacements path prerelease dry_run]
  else .ok []

/-- The pre-release hook of STEP 2 (`src/main.rs` lines 617-638): always
really executed — the hook receives the dry-run flag through its
environment (`cmd::call_with_env` is invoked with `dry_run = false`). A
missing hook behaves as a passing one. -/
def runHook (env : Env) (hook : Option (List String)) (path : Nat)
    (dry_run : Bool) : Except FatalError (Bool × List Effect) :=
  match hook with
  | some _ =>
    match env.hookOk path with
    | .error e => .error e
    | .ok passed => .ok (passed, [Effect.hook path dry_run])
  | none => .ok (true, [])

/-- The STEP 2 body for one package (`src/main.rs` lines 579-657):
manifest version rewrite, dependent reconciliation, lock refresh,
pre-release replacements, pre-release hook (veto ⇒ 107), then a
per-package commit (failure ⇒ 102) or the shared-commit flag. Returns
the early-exit code, this package's contribution to `shared_commit`, and
the trace. -/
def stepCommitPkg (env : Env) (args : ReleaseOpt) (ws_config : Config)
    (pkg : PackageRelease) :
    Except FatalError ((Option Nat × Bool) × List Effect) :=
  match pkg.version with
  | none => .ok ((none, false), [])
  | some version => do
    let new_version_string := semverToString version
    let t₀ ← maybeSetVersion env args.dry_run pkg.manifest_path
      new_version_string
    let ((), t₁) ← update_dependent_versions env pkg version args.dry_run
    let t₂ ← maybeUpdateLock env args.dry_run pkg.manifest_path
    let t₃ ← maybeReplacements env pkg.config.pre_release_replacements
      pkg.package_path (!version.pre.isEmpty) args.dry_run
    let (hookPassed, tH) ← runHook env pkg.config.pre_release_hook
      pkg.package_path args.dry_run
    if !hookPassed then
      .ok ((some 107, false), t₀ ++ t₁ ++ t₂ ++ t₃ ++ tH)
    else if ws_config.consolidate_commits then
      .ok ((none, true), t₀ ++ t₁ ++ t₂ ++ t₃ ++ tH)
    else do
      let template : Template :=
        { prev_version := some (semverToString pkg.prev_version),
          version := some new_version_string,
          crate_name := some pkg.name,
          date := some env.now }
      let commit_msg := env.render pkg.config.pre_release_commit_message
        template
      let (ok, tC) ← git_commit_all env pkg.package_path commit_msg
        pkg.config.sign_commit args.dry_run
      if !ok then .ok ((some 102, false), t₀ ++ t₁ ++ t₂ ++ t₃ ++ tH ++ tC)
      else .ok ((none, false), t₀ ++ t₁ ++ t₂ ++ t₃ ++ tH ++ tC)

/-- The STEP 2 loop over all packages, accumulating the `shared_commit`
flag; a Rust `return` inside the loop exits the whole pipeline. -/
def stepCommitLoop (env : Env) (args : ReleaseOpt) (ws_config : Config) :
    List PackageRelease → Except FatalError ((Option Nat × Bool) × List Effect)
  | [] => .ok ((none, false), [])
  | pkg :: pkgs => do
    let ((r, sh), t) ← stepCommitPkg env args ws_config pkg
    match r with
    | some code => .ok ((some code, sh), t)
    | none => do
      let ((r', sh'), t') ← stepCommitLoop env args ws_config pkgs
      .ok ((r', sh || sh'), t ++ t')

/-- STEP 2 (`src/main.rs` lines 577-676): the per-package loop followed
by the single shared commit when commits are consolidated (failure ⇒
102). -/
def stepCommit (env : Env) (args : ReleaseOpt) (ws_config : Config)
    (ws_root : Nat) (pkgs : List PackageRelease) :
    Except FatalError (Option Nat × List Effect) := do
  let ((r, shared_commit), t) ← stepCommitLoop env args ws_config pkgs
  match r with
  | some code => .ok (some code, t)
  | none =>
    if shared_commit then do
      let shared_commit_msg :=
        env.render ws_config.pre_release_commit_message { date := some env.now }
      let (ok, tC) ← git_commit_all env ws_root shared_commit_msg
        ws_config.sign_commit args.dry_run
      if !ok then .ok (some 102, t ++ tC)
      else .ok (none, t ++ tC)
    else .ok (none, t)

/-- The STEP 3 body for one package (`src/main.rs` lines 679-717):
publish whenever publishing is not disabled (failure ⇒ 103), then for the
default registry wait for the index and apply the grace sleep (skipped on
dry-run). -/
def stepPublishPkg (env : Env) (args : ReleaseOpt) (pkg : PackageRelease) :
    Except FatalError (Option Nat × List Effect) :=
  if !pkg.config.disable_publish then do
    let base := pkg.version.getD pkg.prev_version
    let (ok, t₁) ← cargo_publish env args.dry_run pkg.manifest_path
      pkg.features pkg.config.registry args.token
    if !ok then .ok (some 103, t₁)
    else if pkg.config.registry.isNone then do
      let ((), t₂) ← cargo_wait_for_publish env pkg.name
        (semverToString base) args.dry_run
      let t₃ := if !args.dry_run then [Effect.graceSleep] else []
      .ok (none, t₁ ++ t₂ ++ t₃)
    else .ok (none, t₁)
  else .ok (none, [])

/-- The STEP 3 loop. -/
def stepPublishLoop (env : Env) (args : ReleaseOpt) :
    List PackageRelease → Except FatalError (Option Nat × List Effect)
  | [] => .ok (none, [])
  | pkg :: pkgs => do
    let (r, t) ← stepPublishPkg env args pkg
    match r with
    | some code => .ok (some code, t)
    | none => do
      let (r', t') ← stepPublishLoop env args pkgs
      .ok (r', t ++ t')

/-- The STEP 5 body for one package (`src/main.rs` lines 720-748): create
the annotated tag for every plan with a tag name; the tag is signed when
`sign_commit` or `sign_tag` is set (failure ⇒ 104). -/
def stepTagPkg (env : Env) (args : ReleaseOpt) (pkg : PackageRelease) :
    Except FatalError (Option Nat × List Effect) :=
  match pkg.tag with
  | none => .ok (none, [])
  | some tag_name => do
    let sign := pkg.config.sign_commit || pkg.config.sign_tag
    let base := pkg.version.getD pkg.prev_version
    let template : Template :=
      { prev_version := some (semverToString pkg.prev_version),
        version := some (semverToString base),
        crate_name := some pkg.name,
        tag_name := some tag_name,
        date := some env.now }
    let tag_message := env.render pkg.config.tag_message template
    let (ok, t) ← git_tag env pkg.package_path tag_name tag_message sign
      args.dry_run
    if !ok then .ok (some 104, t) else .ok (none, t)

/-- The STEP 5 loop. -/
def stepTagLoop (env : Env) (args : ReleaseOpt) :
    List PackageRelease → Except FatalError (Option Nat × List Effect)
  | [] => .ok (none, [])
  | pkg :: pkgs => do
    let (r, t) ← stepTagPkg env args pkg
    match r with
    | some code => .ok (some code, t)
    | none => do
      let (r', t') ← stepTagLoop env args pkgs
      .ok (r', t ++ t')

/-- The manifest rewrite and lock refresh of STEP 6 (`src/main.rs` lines
765-768), both guarded by dry-run. -/
def maybeBumpWrites (env : Env) (dry_run : Bool) (manifest : Nat)
    (vs : String) : Except FatalError (List Effect) :=
  if !dry_run then
    match env.setPackageVersionOk manifest with
    | .error e => .error e
    | .ok _ =>
      match env.updateLockOk manifest with
      | .error e => .error e
      | .ok _ => .ok [Effect.setPackageVersion manifest vs,
                      Effect.updateLock manifest]
  else .ok []

/-- The STEP 6 body for one package (`src/main.rs` lines 753-799): for
every plan with a post-release version, reconcile dependents against it,
rewrite the manifest and lock, apply post-release replacements
(unconditionally non-pre-release), then a per-package commit (failure ⇒
105) or the shared-commit flag. -/
def stepBumpPkg (env : Env) (args : ReleaseOpt) (ws_config : Config)
    (pkg : PackageRelease) :
    Except FatalError ((Option Nat × Bool) × List Effect) :=
  match pkg.post_version with
  | none => .ok ((none, false), [])
  | some version => do
    let updated_version_string := semverToString version
    let ((), t₁) ← update_dependent_versions env pkg version args.dry_run
    let t₂ ← maybeBumpWrites env args.dry_run pkg.manifest_path
      updated_version_string
    let t₃ ← maybeReplacements env pkg.config.post_release_replacements
      pkg.package_path false args.dry_run
    let base := pkg.version.getD pkg.prev_version
    let template : Template :=
      { prev_version := some (semverToString pkg.prev_version),
        version := some (semverToString base),
        crate_name := some pkg.name,
        date := some env.now,
        tag_name := pkg.tag,
        next_version := some updated_version_string }
    let commit_msg := env.render pkg.config.post_release_commit_message
      template
    if ws_config.consolidate_commits then
      .ok ((none, true), t₁ ++ t₂ ++ t₃)
    else do
      let (ok, tC) ← git_commit_all env pkg.package_path commit_msg
        pkg.config.sign_commit args.dry_run
      if !ok then .ok ((some 105, false), t₁ ++ t₂ ++ t₃ ++ tC)
      else .ok ((none, false), t₁ ++ t₂ ++ t₃ ++ tC)

/-- The STEP 6 loop, accumulating the `shared_commit` flag. -/
def stepBumpLoop (env : Env) (args : ReleaseOpt) (ws_config : Config) :
    List PackageRelease → Except FatalError ((Option Nat × Bool) × List Effect)
  | [] => .ok ((none, false), [])
  | pkg :: pkgs => do
    let ((r, sh), t) ← stepBumpPkg env args ws_config pkg
    match r with
    | some code => .ok ((some code, sh), t)
    | none => do
      let ((r', sh'), t') ← stepBumpLoop env args ws_config pkgs
      .ok ((r', sh || sh'), t ++ t')

/-- STEP 6 (`src/main.rs` lines 751-818): the per-package loop followed,
under consolidated commits, by the single shared post-release commit —
whose failure returns 102 in the source (`src/main.rs` line 816), not
105. -/
def stepBump (env : Env) (args : ReleaseOpt) (ws_config : Config)
    (ws_root : Nat) (pkgs : List PackageRelease) :
    Except FatalError (Option Nat × List Effect) := do
  let ((r, shared_commit), t) ← stepBumpLoop env args ws_config pkgs
  match r with
  | some code => .ok (some code, t)
  | none =>
    if shared_commit then do
      let shared_commit_msg :=
        env.render ws_config.post_release_commit_message { date := some env.now }
      let (ok, tC) ← git_commit_all env ws_root shared_commit_msg
        ws_config.sign_commit args.dry_run
      if !ok then .ok (some 102, t ++ tC)
      else .ok (none, t ++ tC)
    else .ok (none, t)

/-- The tag-push part of the STEP 7 body (`src/main.rs` lines 830-835):
a plan without a tag name skips it, behaving as a success. -/
def pushTagPart (env : Env) (args : ReleaseOpt) (ws_config : Config)
    (pkg : PackageRelease) : Except FatalError (Bool × List Effect) :=
  match pkg.tag with
  | some tag_name =>
    git_push_tag env pkg.package_path ws_config.push_remote tag_name
      args.dry_run
  | none => .ok (true, [])

/-- The STEP 7 body for one package (`src/main.rs` lines 824-843): push
the tag if any, then the branch unless pushes are consolidated (failure ⇒
106). -/
def stepPushPkg (env : Env) (args : ReleaseOpt) (ws_config : Config)
    (shared_push : Bool) (pkg : PackageRelease) :
    Except FatalError (Option Nat × List Effect) :=
  if pkg.config.disable_push then .ok (none, [])
  else do
    let (tagOk, t₁) ← pushTagPart env args ws_config pkg
    if !tagOk then .ok (some 106, t₁)
    else if !shared_push then do
      let (ok, t₂) ← git_push env pkg.package_path ws_config.push_remote
        pkg.config.push_options args.dry_run
      if !ok then .ok (some 106, t₁ ++ t₂)
      else .ok (none, t₁ ++ t₂)
    else .ok (none, t₁)

/-- The STEP 7 loop. -/
def stepPushLoop (env : Env) (args : ReleaseOpt) (ws_config : Config)
    (shared_push : Bool) :
    List PackageRelease → Except FatalError (Option Nat × List Effect)
  | [] => .ok (none, [])
  | pkg :: pkgs => do
    let (r, t) ← stepPushPkg env args ws_config shared_push pkg
    match r with
    | some code => .ok (some code, t)
    | none => do
      let (r', t') ← stepPushLoop env args ws_config shared_push pkgs
      .ok (r', t ++ t')

/-- STEP 7 (`src/main.rs` lines 820-856): unless pushes are disabled,
push tags and branches per package, then the single consolidated branch
push when configured. -/
def stepPush (env : Env) (args : ReleaseOpt) (ws_config : Config)
    (ws_root : Nat) (pkgs : List PackageRelease) :
    Except FatalError (Option Nat × List Effect) :=
  if !ws_config.disable_push then do
    let shared_push := ws_config.consolidate_pushes
    let (r, t) ← stepPushLoop env args ws_config shared_push pkgs
    match r with
    | some code => .ok (some code, t)
    | none =>
      if shared_push then do
        let (ok, t') ← git_push env ws_root ws_config.push_remote
          ws_config.push_options args.dry_run
        if !ok then .ok (some 106, t ++ t')
        else .ok (none, t ++ t')
      else .ok (none, t)
  else .ok (none, [])

/-- Mirror of `release_packages` (`src/main.rs` lines 444-859): the strictly
ordered 7-phase pipeline, returning the process exit code together with
the trace of collaborator invocations. -/
def release_packages (env : Env) (args : ReleaseOpt) (ws_config : Config)
    (ws_root : Nat) (pkgs : List PackageRelease) :
    Except FatalError (Nat × List Effect) := do
  let (r₀, t₀) ← stepPreflight env args ws_config ws_root pkgs
  match r₀ with
  | some code => .ok (code, t₀)
  | none =>
    let (r₁, t₁) := stepConfirm env args pkgs
    match r₁ with
    | some code => .ok (code, t₀ ++ t₁)
    | none => do
      let (r₂, t₂) ← stepCommit env args ws_config ws_root pkgs
      match r₂ with
      | some code => .ok (code, t₀ ++ t₁ ++ t₂)
      | none => do
        let (r₃, t₃) ← stepPublishLoop env args pkgs
        match r₃ with
        | some code => .ok (code, t₀ ++ t₁ ++ t₂ ++ t₃)
        | none => do
          let (r₅, t₅) ← stepTagLoop env args pkgs
          match r₅ with
          | some code => .ok (code, t₀ ++ t₁ ++ t₂ ++ t₃ ++ t₅)
          | none => do
            let (r₆, t₆) ← stepBump env args ws_config ws_root pkgs
            match r₆ with
            | some code => .ok (code, t₀ ++ t₁ ++ t₂ ++ t₃ ++ t₅ ++ t₆)
            | none => do
              let (r₇, t₇) ← stepPush env args ws_config ws_root pkgs
              match r₇ with
              | some code =>
                .ok (code, t₀ ++ t₁ ++ t₂ ++ t₃ ++ t₅ ++ t₆ ++ t₇)
              | none =>
                .ok (0, t₀ ++ t₁ ++ t₂ ++ t₃ ++ t₅ ++ t₆ ++ t₇)

/-! ### The workspace sorter (`sort_workspace`, `src/main.rs` 397-442) -/

/-- The workspace dependency graph as read from `cargo_metadata`:
the member package identities (abstracted to `Nat`) and, for each, the
resolved dependency list (the `dep_tree` of `sort_workspace`; lookups for
non-members never happen, matching the `dep_tree[pkg_id]` indexing). -/
structure Graph where
  members : List Nat
  deps : Nat → List Nat

/-- An intra-workspace dependency edge: `a` depends on `b`, both being
workspace members (the `dep_tree.contains_key` filter of
`sort_workspace_inner`). -/
def Graph.Edge (g : Graph) (a b : Nat) : Prop :=
  a ∈ g.members ∧ b ∈ g.deps a ∧ b ∈ g.members

/-- Acyclicity of the workspace graph (guaranteed by the package manager;
spec §3). -/
def Graph.Acyclic (g : Graph) : Prop :=
  ∀ a, ¬ Relation.TransGen g.Edge a a

/-- Mirror of `sort_workspace_inner` (`src/main.rs` lines 423-442): depth-first
post-order visit. The state is `(processed, sorted)`; the `fuel`
parameter bounds the recursion depth (the Rust recursion needs none
because `processed` grows on every nested call; `sort_workspace` passes
more fuel than the recursion can ever consume, see `sort_spec`). The
loop over the member-filtered dependency list is the fold in the body. -/
def sort_workspace_inner (g : Graph) :
    Nat → Nat → List Nat × List Nat → List Nat × List Nat
  | 0, _, st => st
  | fuel + 1, pkg_id, st =>
    if pkg_id ∈ st.1 then st
    else
      let st' := ((g.deps pkg_id).filter (fun d => d ∈ g.members)).foldl
        (fun s d => sort_workspace_inner g fuel d s) (pkg_id :: st.1, st.2)
      (st'.1, st'.2 ++ [pkg_id])

/-- The visiting loop shared by `sort_workspace_inner`'s dependency walk
and `sort_workspace`'s top-level member walk. -/
def sort_workspace_deps (g : Graph) (fuel : Nat) (ds : List Nat)
    (st : List Nat × List Nat) : List Nat × List Nat :=
  ds.foldl (fun s d => sort_workspace_inner g fuel d s) st

/-- Mirror of `sort_workspace` (`src/main.rs` lines 397-421): visit every workspace
member in declaration order and return the accumulated post-order. -/
def sort_workspace (g : Graph) : List Nat :=
  (sort_workspace_deps g (g.members.length + 1) g.members ([], [])).2

/-! ### Concrete instances used to exercise the theorems -/

/-- A collaborator environment in which every command succeeds, the tree
is clean, the user confirms, and the renderer returns the template text
unchanged. -/
def envOk : Env :=
  { gitVersionOk := true,
    isDirty := fun _ => .ok false,
    changedFiles := fun _ _ => .ok (some []),
    currentBranch := .ok "master",
    fetchOk := .ok (),
    isBehindRemote := .ok false,
    confirm := true,
    setPackageVersionOk := fun _ => .ok (),
    setDependencyVersionOk := fun _ => .ok (),
    updateLockOk := fun _ => .ok (),
    replaceOk := fun _ => .ok (),
    hookOk := fun _ => .ok true,
    commitOk := fun _ _ => .ok true,
    publishOk := fun _ => .ok true,
    waitForPublishOk := fun _ _ => .ok (),
    tagOk := fun _ => .ok true,
    pushTagOk := fun _ => .ok true,
    pushOk := fun _ => .ok true,
    render := fun s _ => s,
    now := "2021-01-01" }

/-- A bump policy that never changes the version (any concrete policy
serves the absolute-request theorems, which ignore it). -/
def noopPolicy : BumpPolicy := fun _ _ _ => .ok none

/-- Options requesting the absolute version 1.2.4. -/
def c4args : ReleaseOpt := { level_or_version := .absolute ⟨1, 2, 4, []⟩ }

/-- The plan `PackageRelease.load` builds for a package at 1.2.3 released
to 1.2.4 under the default configuration (identity renderer). -/
def c4pkgExpected : PackageRelease :=
  { name := "demo", manifest_path := 1, package_path := 2, config := {},
    prev_version := ⟨1, 2, 3, []⟩, prev_tag := "\x7b\x7bprefix\x7d\x7dv\x7b\x7bversion\x7d\x7d",
    version := some ⟨1, 2, 4, []⟩, tag := some "\x7b\x7bprefix\x7d\x7dv\x7b\x7bversion\x7d\x7d",
    post_version := some ⟨1, 2, 5, [.alphaNumeric "alpha"]⟩,
    dependents := [], features := .None }

/-- A `^1`-style requirement, satisfied exactly by major version 1. -/
def reqCaret1 : VersionReq :=
  { text := "^1.0", matchesVersion := fun v => v.major == 1 }

/-- A `^2`-style requirement, satisfied exactly by major version 2. -/
def reqCaret2 : VersionReq :=
  { text := "^2", matchesVersion := fun v => v.major == 2 }

/-- A dependent whose requirement does not match the new version 2.0.0. -/
def depB : Dependency := { pkgName := "b", pkgManifestPath := 10, req := reqCaret1 }

/-- A dependent whose requirement already matches the new version 2.0.0. -/
def depC : Dependency := { pkgName := "c", pkgManifestPath := 11, req := reqCaret2 }

/-- A package plan releasing `a` from 1.0.0 to 2.0.0 with dependents
`b` (mismatching) and `c` (matching). -/
def basePkg : PackageRelease :=
  { name := "a", manifest_path := 1, package_path := 2, config := {},
    prev_version := ⟨1, 0, 0, []⟩, prev_tag := "v1.0.0",
    version := some ⟨2, 0, 0, []⟩, tag := some "v2.0.0",
    post_version := some ⟨2, 0, 1, [.alphaNumeric "alpha"]⟩,
    dependents := [depB, depC], features := .None }

/-- The plan `basePkg` under the `Error` dependent-version policy. -/
def errorPkg : PackageRelease :=
  { basePkg with config := { dependent_version := .Error } }

/-- The plan `basePkg` under the `Fix` dependent-version policy. -/
def fixPkg : PackageRelease :=
  { basePkg with config := { dependent_version := .Fix } }

/-- The plan `basePkg` under the `Upgrade` dependent-version policy. -/
def upgradePkg : PackageRelease :=
  { basePkg with config := { dependent_version := .Upgrade } }

/-- The element `b` appears strictly before `a` in the list `l`. -/
def ListBefore (l : List Nat) (b a : Nat) : Prop :=
  ∃ l₁ l₂ l₃, l = l₁ ++ b :: l₂ ++ a :: l₃

/-- Topological soundness of a recorded order: every member-dependency of
a recorded package is recorded before it. -/
def SortGood (g : Graph) (l : List Nat) : Prop :=
  ∀ a b, g.Edge a b → a ∈ l → ListBefore l b a

/-- A package is "gray" in a traversal state: marked processed but not
yet recorded (it sits on the recursion stack). -/
def grayOf (st : List Nat × List Nat) (x : Nat) : Prop :=
  x ∈ st.1 ∧ x ∉ st.2

/-- The invariant of the depth-first traversal state
`(processed, sorted)`. -/
structure SortInv (g : Graph) (st : List Nat × List Nat) : Prop where
  sortedSubProc : ∀ x ∈ st.2, x ∈ st.1
  procSubMembers : ∀ x ∈ st.1, x ∈ g.members
  sortedNodup : st.2.Nodup
  good : SortGood g st.2

/-- What one traversal step guarantees: the processed set grows, the
order is only appended to with packages that were not yet processed,
every newly processed package is recorded, the gray set is unchanged, and
the invariant is preserved. -/
def CorePost (g : Graph) (st st' : List Nat × List Nat) : Prop :=
  (∀ x ∈ st.1, x ∈ st'.1) ∧
  (∃ delta, st'.2 = st.2 ++ delta ∧ ∀ x ∈ delta, x ∉ st.1) ∧
  (∀ x ∈ st'.1, x ∈ st.1 ∨ x ∈ st'.2) ∧
  (∀ x, grayOf st' x ↔ grayOf st x) ∧
  SortInv g st'

/-- The number of workspace members not yet processed (the fuel
argument's strictly decreasing measure). -/
def unprocCount (g : Graph) (st : List Nat × List Nat) : Nat :=
  g.members.countP (fun m => !(decide (m ∈ st.1)))

/-- The diamond workspace of the spec: `A = 0` depends on `B = 1` and
`C = 2`, which both depend on `D = 3`. -/
def diamond : Graph :=
  { members := [0, 1, 2, 3],
    deps := fun n =>
      if n = 0 then [1, 2]
      else if n = 1 then [3]
      else if n = 2 then [3]
      else [] }

/-- The environment `envOk` with a dirty working tree. -/
def envDirty : Env := { envOk with isDirty := fun _ => .ok true }

/-- The environment `envOk` with the user declining the confirmation prompt. -/
def envDecline : Env := { envOk with confirm := false }

/-- The plan `basePkg` with commit signing enabled but tag signing disabled. -/
def signPkg : PackageRelease :=
  { basePkg with config := { sign_commit := true } }

/-- A plan with no `version` (the package is not part of this release)
but with tagging and publishing still enabled, and no development bump. -/
def pkgC1 : PackageRelease :=
  { name := "a", manifest_path := 1, package_path := 2,
    config := { no_dev_version := true },
    prev_version := ⟨1, 0, 0, []⟩, prev_tag := "v1.0.0",
    version := none, tag := some "vtag", post_version := none,
    dependents := [], features := .None }

/-- Options that skip the interactive confirmation. -/
def argsNoConfirm : ReleaseOpt := { no_confirm := true }

/-- A plan with no `version` but a post-release development version, its
publish and tag disabled: under consolidated commits the only commit of
its run is the shared post-release-bump commit. -/
def pkgC8 : PackageRelease :=
  { name := "a", manifest_path := 1, package_path := 2,
    config := { disable_publish := true },
    prev_version := ⟨1, 0, 0, []⟩, prev_tag := "v1.0.0",
    version := none, tag := none,
    post_version := some ⟨1, 0, 1, [.alphaNumeric "alpha"]⟩,
    dependents := [], features := .None }

/-- Workspace configuration with consolidated commits. -/
def wsC8 : Config := { consolidate_commits := true }

/-- The environment `envOk` with every commit attempt failing. -/
def envC8 : Env := { envOk with commitOk := fun _ _ => .ok false }

/-! ### Order facts about the semver comparison -/

theorem strCompare_eq_eq {a b : String} : strCompare a b = .eq ↔ a = b := by
  unfold strCompare
  split
  · rename_i h
    constructor
    · intro hc; cases hc
    · intro hab; exact absurd hab (ne_of_lt h)
  · split
    · rename_i h; simp [h]
    · rename_i h₁ h₂
      constructor
      · intro hc; cases hc
      · intro hab; exact absurd hab h₂

theorem strCompare_swap (a b : String) : strCompare a b = (strCompare b a).swap := by
  unfold strCompare
  rcases lt_trichotomy a b with h | h | h
  · rw [if_pos h, if_neg (asymm h), if_neg (Ne.symm (ne_of_lt h))]; rfl
  · subst h; rw [if_neg (lt_irrefl a), if_pos rfl]; rfl
  · rw [if_neg (asymm h), if_neg (Ne.symm (ne_of_lt h)), if_pos h]; rfl

theorem natCompare_eq_eq {a b : Nat} : compare a b = .eq ↔ a = b :=
  ⟨fun h => Nat.compare_eq_eq.mp h, fun h => h ▸ Nat.compare_eq_eq.mpr rfl⟩

theorem natCompare_swap (a b : Nat) : compare a b = (compare b a).swap := by
  rcases Nat.lt_trichotomy a b with h | h | h
  · simp [Nat.compare_eq_lt.mpr h, Nat.compare_eq_gt.mpr h, Ordering.swap]
  · simp [h, Nat.compare_eq_eq.mpr rfl, Ordering.swap]
  · simp [Nat.compare_eq_gt.mpr h, Nat.compare_eq_lt.mpr h, Ordering.swap]

theorem identCompare_eq_eq {a b : Identifier} : identCompare a b = .eq ↔ a = b := by
  cases a <;> cases b <;> simp [identCompare, natCompare_eq_eq, strCompare_eq_eq]

theorem identCompare_swap (a b : Identifier) :
    identCompare a b = (identCompare b a).swap := by
  cases a <;> cases b
  · exact natCompare_swap _ _
  · rfl
  · rfl
  · exact strCompare_swap _ _

theorem preCompare_eq_eq : ∀ {a b : List Identifier}, preCompare a b = .eq ↔ a = b := by
  intro a
  induction a with
  | nil => intro b; cases b <;> simp [preCompare]
  | cons x xs ih =>
    intro b
    cases b with
    | nil => simp [preCompare]
    | cons y ys =>
      simp only [preCompare]
      rcases h : identCompare x y with _ | _ | _
      · simp only [h]
        constructor
        · intro hc; cases hc
        · intro he
          injection he with he₁ _
          rw [identCompare_eq_eq.mpr he₁] at h; cases h
      · have hxy : x = y := identCompare_eq_eq.mp h
        subst hxy
        simp only [h]
        rw [ih]
        simp
      · simp only [h]
        constructor
        · intro hc; cases hc
        · intro he
          injection he with he₁ _
          rw [identCompare_eq_eq.mpr he₁] at h; cases h

theorem preCompare_swap : ∀ (a b : List Identifier),
    preCompare a b = (preCompare b a).swap := by
  intro a
  induction a with
  | nil => intro b; cases b <;> rfl
  | cons x xs ih =>
    intro b
    cases b with
    | nil => rfl
    | cons y ys =>
      simp only [preCompare]
      rw [identCompare_swap x y]
      rcases h : identCompare y x with _ | _ | _ <;>
        simp [Ordering.swap, ih ys]

theorem preOrder_eq_eq : ∀ {a b : List Identifier}, preOrder a b = .eq ↔ a = b
  | [], [] => by simp [preOrder]
  | [], _ :: _ => by simp [preOrder]
  | _ :: _, [] => by simp [preOrder]
  | x :: xs, y :: ys => by
    simpa only [preOrder] using preCompare_eq_eq

theorem preOrder_swap : ∀ (a b : List Identifier), preOrder a b = (preOrder b a).swap
  | [], [] => rfl
  | [], _ :: _ => rfl
  | _ :: _, [] => rfl
  | x :: xs, y :: ys => by
    simpa only [preOrder] using preCompare_swap (x :: xs) (y :: ys)

theorem ordering_then_eq_eq {o₁ o₂ : Ordering} :
    o₁.then o₂ = .eq ↔ o₁ = .eq ∧ o₂ = .eq := by
  cases o₁ <;> simp [Ordering.then]

theorem ordering_then_swap (o₁ o₂ : Ordering) :
    (o₁.then o₂).swap = o₁.swap.then o₂.swap := by
  cases o₁ <;> cases o₂ <;> simp [Ordering.then, Ordering.swap]

theorem semverCompare_eq_eq {a b : SemVer} : semverCompare a b = .eq ↔ a = b := by
  unfold semverCompare
  rw [ordering_then_eq_eq, ordering_then_eq_eq, ordering_then_eq_eq,
    natCompare_eq_eq, natCompare_eq_eq, natCompare_eq_eq, preOrder_eq_eq]
  constructor
  · rintro ⟨h₁, h₂, h₃, h₄⟩
    cases a; cases b; simp_all
  · rintro rfl; exact ⟨rfl, rfl, rfl, rfl⟩

theorem semverCompare_swap (a b : SemVer) :
    semverCompare a b = (semverCompare b a).swap := by
  unfold semverCompare
  rw [ordering_then_swap, ordering_then_swap, ordering_then_swap,
    ← natCompare_swap, ← natCompare_swap, ← natCompare_swap, ← preOrder_swap]

theorem semverLt_asymm {a b : SemVer} (h : semverLt a b) : ¬ semverLt b a := by
  intro h'
  unfold semverLt at h h'
  rw [semverCompare_swap, h'] at h
  cases h

theorem semverLt_irrefl (a : SemVer) : ¬ semverLt a a := by
  intro h
  exact absurd (semverCompare_eq_eq.mpr rfl) (by rw [h]; simp)

/-- Trichotomy for the semver order. -/
theorem semverLt_trichotomy (a b : SemVer) :
    semverLt a b ∨ a = b ∨ semverLt b a := by
  rcases h : semverCompare a b with hc | hc | hc
  · exact Or.inl h
  · exact Or.inr (Or.inl (semverCompare_eq_eq.mp h))
  · refine Or.inr (Or.inr ?_)
    unfold semverLt
    rw [semverCompare_swap, h]
    rfl

/-- Incrementing the patch number yields a strictly greater version, no
matter what pre-release identifiers are then attached. -/
theorem semverLt_of_patch_lt {a b : SemVer} (h₁ : a.major = b.major)
    (h₂ : a.minor = b.minor) (h₃ : a.patch < b.patch) : semverLt a b := by
  unfold semverLt semverCompare
  rw [h₁, h₂, natCompare_eq_eq.mpr rfl, natCompare_eq_eq.mpr rfl,
    Nat.compare_eq_lt.mpr h₃]
  rfl


/-! ### Claim theorems -/

/-- C3: for every current version and absolute target, `TargetVersion::bump`
returns no change exactly when the target equals the current version,
returns the target exactly when it is strictly greater, fails with
`UnsupportedVersionRequest` exactly when the target is strictly smaller,
and these three are the only possible outcomes. -/
theorem absolute_bump_trichotomy (policy : BumpPolicy) (current target : SemVer)
    (metadata : Option String) :
    (TargetVersion.bump policy (.absolute target) current metadata = .ok none ↔
      target = current) ∧
    (TargetVersion.bump policy (.absolute target) current metadata =
        .ok (some target) ↔ semverLt current target) ∧
    ((∃ msg, TargetVersion.bump policy (.absolute target) current metadata =
        .error (.unsupportedVersionReq msg)) ↔ semverLt target current) ∧
    (TargetVersion.bump policy (.absolute target) current metadata = .ok none ∨
     TargetVersion.bump policy (.absolute target) current metadata =
       .ok (some target) ∨
     TargetVersion.bump policy (.absolute target) current metadata =
       .error (.unsupportedVersionReq
         "Cannot release version smaller than current one")) := by
  simp only [TargetVersion.bump]
  by_cases hlt : semverLt current target
  · have hne : current ≠ target := by
      intro h; subst h; exact semverLt_irrefl current hlt
    rw [if_pos hlt]
    refine ⟨?_, ?_, ?_, Or.inr (Or.inl rfl)⟩
    · constructor
      · intro h; cases h
      · intro h; subst h; exact absurd hlt (semverLt_irrefl target)
    · simp [hlt]
    · constructor
      · rintro ⟨msg, h⟩; cases h
      · intro h; exact absurd hlt (semverLt_asymm h)
  · by_cases heq : current = target
    · subst heq
      rw [if_neg hlt, if_pos rfl]
      refine ⟨?_, ?_, ?_, Or.inl rfl⟩
      · simp
      · constructor
        · intro h; cases h
        · intro h; exact absurd h hlt
      · constructor
        · rintro ⟨msg, h⟩; cases h
        · intro h; exact absurd h (semverLt_irrefl current)
    · have hgt : semverLt target current := by
        rcases semverLt_trichotomy current target with h | h | h
        · exact absurd h hlt
        · exact absurd h heq
        · exact h
      rw [if_neg hlt, if_neg heq]
      refine ⟨?_, ?_, ?_, Or.inr (Or.inr rfl)⟩
      · constructor
        · intro h; cases h
        · intro h; exact absurd h.symm heq
      · constructor
        · intro h; cases h
        · intro h; exact absurd h hlt
      · exact ⟨fun _ => hgt, fun _ => ⟨_, rfl⟩⟩

/-- C4: in every successfully built release plan, a present
`post_version` is strictly greater (in semver precedence) than the
released version — or than the previous version when no release happens —
and carries a pre-release development tag; and when the released version
is itself a pre-release, no `post_version` is produced. -/
theorem post_version_invariant (policy : BumpPolicy) (render : Renderer)
    (args : ReleaseOpt) (git_root : Nat) (ws_pkgs : List WsPackage)
    (pkgName : String) (manifest_path package_path : Nat)
    (pkg_version : SemVer) (resolved_config : Config)
    (cargo_publish_flag : Bool) (pkg : PackageRelease)
    (h : PackageRelease.load policy render args git_root ws_pkgs pkgName
      manifest_path package_path pkg_version resolved_config
      cargo_publish_flag = .ok (some pkg)) :
    (∀ pv, pkg.post_version = some pv →
      (∀ nv, pkg.version = some nv → semverLt nv pv) ∧
      (pkg.version = none → semverLt pkg.prev_version pv) ∧
      pv.pre ≠ []) ∧
    (∀ nv, pkg.version = some nv → nv.is_prerelease = true →
      pkg.post_version = none) := by
  simp only [PackageRelease.load] at h
  set config : Config :=
    (if !cargo_publish_flag then { resolved_config with disable_publish := true }
     else resolved_config) with hconfig
  rcases hrel : config.disable_release with _ | _
  · rw [hrel] at h
    simp only [Bool.false_eq_true, if_false] at h
    rcases hb : args.level_or_version.bump policy pkg_version args.metadata with e | version
    · rw [hb] at h
      cases h
    · rw [hb] at h
      simp only [bind, Except.bind, pure, Except.pure, Except.ok.injEq,
        Option.some.injEq] at h
      subst h
      dsimp only
      constructor
      · intro pv hpv
        rcases hdev : (!(version.map SemVer.is_prerelease).getD false &&
            !config.no_dev_version) with _ | _
        · rw [hdev] at hpv
          simp at hpv
        · rw [hdev] at hpv
          simp only [if_true] at hpv
          rw [Option.some.injEq] at hpv
          subst hpv
          refine ⟨?_, ?_, by simp [SemVer.increment_patch]⟩
          · intro nv hnv
            subst hnv
            exact semverLt_of_patch_lt rfl rfl (Nat.lt_succ_self _)
          · intro hnone
            subst hnone
            exact semverLt_of_patch_lt rfl rfl (Nat.lt_succ_self _)
      · intro nv hnv hpre
        subst hnv
        simp [hpre]
  · rw [hrel] at h
    simp only [if_true] at h
    cases h

/-- Witness for C4 at a concrete plan: a package at 1.2.3 released to
1.2.4 under the default configuration. -/
theorem post_version_invariant_witness :
    (∀ pv, c4pkgExpected.post_version = some pv →
      (∀ nv, c4pkgExpected.version = some nv → semverLt nv pv) ∧
      (c4pkgExpected.version = none →
        semverLt c4pkgExpected.prev_version pv) ∧
      pv.pre ≠ []) ∧
    (∀ nv, c4pkgExpected.version = some nv → nv.is_prerelease = true →
      c4pkgExpected.post_version = none) :=
  post_version_invariant noopPolicy (fun s _ => s) c4args 0 [] "demo" 1 2
    ⟨1, 2, 3, []⟩ {} true c4pkgExpected rfl

/-- Closed form of the reconciler loop under the `Error` policy: it
evaluates every dependent (emitting one warning per mismatch) and never
exits early; the failure flag is the disjunction over all dependents. -/
theorem error_loop_closed (env : Env) (pkg : PackageRelease) (version : SemVer)
    (dry_run : Bool) (hpol : pkg.config.dependent_version = .Error) :
    ∀ deps, update_dependent_versions_loop env pkg version dry_run deps =
      .ok (deps.any (fun dep => !dep.req.matchesVersion version),
           deps.flatMap (fun dep =>
             if !dep.req.matchesVersion version then
               [Effect.warnIncompatible dep.pkgName pkg.name dep.req.text
                 (semverToString version)]
             else [])) := by
  intro deps
  induction deps with
  | nil => rfl
  | cons dep deps ih =>
    simp only [update_dependent_versions_loop, update_dependent_versions_dep,
      hpol, ih]
    by_cases hm : dep.req.matchesVersion version = true
    · simp [hm, Bind.bind, Except.bind]
    · rw [Bool.not_eq_true] at hm
      simp [hm, Bind.bind, Except.bind]

/-- C5: under the `Error` policy the reconciler's loop evaluates every
dependent before failing — it returns normally from the loop with a
warning recorded for each mismatching dependent — and
`update_dependent_versions` returns the single aggregate
`DependencyVersionConflict` failure, after the loop, exactly when at
least one dependent's requirement does not match the new version. -/
theorem error_policy_aggregates (env : Env) (pkg : PackageRelease)
    (version : SemVer) (dry_run : Bool)
    (hpol : pkg.config.dependent_version = .Error) :
    (update_dependent_versions_loop env pkg version dry_run pkg.dependents =
      .ok (pkg.dependents.any (fun dep => !dep.req.matchesVersion version),
           pkg.dependents.flatMap (fun dep =>
             if !dep.req.matchesVersion version then
               [Effect.warnIncompatible dep.pkgName pkg.name dep.req.text
                 (semverToString version)]
             else []))) ∧
    (update_dependent_versions env pkg version dry_run =
        .error .dependencyVersionConflict ↔
      ∃ dep ∈ pkg.dependents, dep.req.matchesVersion version = false) ∧
    (update_dependent_versions env pkg version dry_run =
        .ok ((), pkg.dependents.flatMap (fun dep =>
          if !dep.req.matchesVersion version then
            [Effect.warnIncompatible dep.pkgName pkg.name dep.req.text
              (semverToString version)]
          else [])) ↔
      ∀ dep ∈ pkg.dependents, dep.req.matchesVersion version = true) := by
  have hloop := error_loop_closed env pkg version dry_run hpol pkg.dependents
  refine ⟨hloop, ?_, ?_⟩
  · unfold update_dependent_versions
    rw [hloop]
    rcases hany : pkg.dependents.any (fun dep => !dep.req.matchesVersion version)
        with _ | _
    · simp only [Bind.bind, Except.bind, Bool.false_eq_true, if_false]
      constructor
      · intro hcontra; cases hcontra
      · intro ⟨dep, hmem, hfalse⟩
        rw [List.any_eq_false] at hany
        have := hany dep hmem
        simp [hfalse] at this
    · simp only [Bind.bind, Except.bind, if_true]
      constructor
      · intro _
        rw [List.any_eq_true] at hany
        obtain ⟨dep, hmem, hdep⟩ := hany
        exact ⟨dep, hmem, by simpa using hdep⟩
      · intro _; trivial
  · unfold update_dependent_versions
    rw [hloop]
    rcases hany : pkg.dependents.any (fun dep => !dep.req.matchesVersion version)
        with _ | _
    · simp only [Bind.bind, Except.bind, Bool.false_eq_true, if_false]
      constructor
      · intro _ dep hmem
        rw [List.any_eq_false] at hany
        have := hany dep hmem
        simpa using this
      · intro _; trivial
    · simp only [Bind.bind, Except.bind, if_true]
      constructor
      · intro hcontra; cases hcontra
      · intro hall
        rw [List.any_eq_true] at hany
        obtain ⟨dep, hmem, hdep⟩ := hany
        rw [hall dep hmem] at hdep
        simp at hdep

/-- Witness for C5: releasing `a` 2.0.0 with dependents `b` (requirement
not matching) and `c` (matching) under the `Error` policy. -/
theorem error_policy_aggregates_witness :
    (update_dependent_versions_loop envOk errorPkg ⟨2, 0, 0, []⟩ false
        errorPkg.dependents =
      .ok (errorPkg.dependents.any
             (fun dep => !dep.req.matchesVersion ⟨2, 0, 0, []⟩),
           errorPkg.dependents.flatMap (fun dep =>
             if !dep.req.matchesVersion ⟨2, 0, 0, []⟩ then
               [Effect.warnIncompatible dep.pkgName errorPkg.name dep.req.text
                 (semverToString ⟨2, 0, 0, []⟩)]
             else []))) ∧
    (update_dependent_versions envOk errorPkg ⟨2, 0, 0, []⟩ false =
        .error .dependencyVersionConflict ↔
      ∃ dep ∈ errorPkg.dependents,
        dep.req.matchesVersion ⟨2, 0, 0, []⟩ = false) ∧
    (update_dependent_versions envOk errorPkg ⟨2, 0, 0, []⟩ false =
        .ok ((), errorPkg.dependents.flatMap (fun dep =>
          if !dep.req.matchesVersion ⟨2, 0, 0, []⟩ then
            [Effect.warnIncompatible dep.pkgName errorPkg.name dep.req.text
              (semverToString ⟨2, 0, 0, []⟩)]
          else [])) ↔
      ∀ dep ∈ errorPkg.dependents,
        dep.req.matchesVersion ⟨2, 0, 0, []⟩ = true) :=
  error_policy_aggregates envOk errorPkg ⟨2, 0, 0, []⟩ false rfl

/-- Closed form of the reconciler loop under the `Fix` policy: a
corrected requirement is written back exactly for the mismatching
dependents, and only outside dry-run. -/
theorem fix_loop_closed (env : Env) (pkg : PackageRelease) (version : SemVer)
    (dry_run : Bool) (hok : ∀ p, env.setDependencyVersionOk p = .ok ())
    (hpol : pkg.config.dependent_version = .Fix) :
    ∀ deps, update_dependent_versions_loop env pkg version dry_run deps =
      .ok (false, deps.flatMap (fun dep =>
        if !dep.req.matchesVersion version && !dry_run then
          [Effect.setDependencyVersion dep.pkgManifestPath pkg.name
            (semverToString version)]
        else [])) := by
  intro deps
  induction deps with
  | nil => rfl
  | cons dep deps ih =>
    simp only [update_dependent_versions_loop, update_dependent_versions_dep,
      hpol, set_requirement, ih]
    by_cases hm : dep.req.matchesVersion version = true
    · simp [hm, Bind.bind, Except.bind]
    · rw [Bool.not_eq_true] at hm
      rcases hd : dry_run with _ | _
      · simp [hm, hd, hok, Bind.bind, Except.bind]
      · simp [hm, hd, Bind.bind, Except.bind]

/-- Closed form of the reconciler loop under the `Upgrade` policy: a
corrected requirement is written back for every dependent — matching or
not — and only outside dry-run. -/
theorem upgrade_loop_closed (env : Env) (pkg : PackageRelease)
    (version : SemVer) (dry_run : Bool)
    (hok : ∀ p, env.setDependencyVersionOk p = .ok ())
    (hpol : pkg.config.dependent_version = .Upgrade) :
    ∀ deps, update_dependent_versions_loop env pkg version dry_run deps =
      .ok (false, deps.flatMap (fun dep =>
        if !dry_run then
          [Effect.setDependencyVersion dep.pkgManifestPath pkg.name
            (semverToString version)]
        else [])) := by
  intro deps
  induction deps with
  | nil => rfl
  | cons dep deps ih =>
    simp only [update_dependent_versions_loop, update_dependent_versions_dep,
      hpol, set_requirement, ih]
    rcases hd : dry_run with _ | _
    · simp [hd, hok, Bind.bind, Except.bind]
    · simp [hd, Bind.bind, Except.bind]

/-- C6: the reconciler writes a corrected requirement back to a
dependent's manifest exactly for the mismatching dependents under `Fix`,
and for every dependent — even when the existing requirement already
matches — under `Upgrade`; in both policies the write-back is suppressed
when dry-run is active (the write lists below are empty when
`dry_run = true`). -/
theorem fix_upgrade_writeback (env : Env) (pkg : PackageRelease)
    (version : SemVer) (dry_run : Bool)
    (hok : ∀ p, env.setDependencyVersionOk p = .ok ()) :
    (pkg.config.dependent_version = .Fix →
      update_dependent_versions env pkg version dry_run =
        .ok ((), pkg.dependents.flatMap (fun dep =>
          if !dep.req.matchesVersion version && !dry_run then
            [Effect.setDependencyVersion dep.pkgManifestPath pkg.name
              (semverToString version)]
          else []))) ∧
    (pkg.config.dependent_version = .Upgrade →
      update_dependent_versions env pkg version dry_run =
        .ok ((), pkg.dependents.flatMap (fun dep =>
          if !dry_run then
            [Effect.setDependencyVersion dep.pkgManifestPath pkg.name
              (semverToString version)]
          else []))) := by
  constructor
  · intro hpol
    unfold update_dependent_versions
    rw [fix_loop_closed env pkg version dry_run hok hpol pkg.dependents]
    rfl
  · intro hpol
    unfold update_dependent_versions
    rw [upgrade_loop_closed env pkg version dry_run hok hpol pkg.dependents]
    rfl

/-- Witness for C6: releasing `a` 2.0.0 over dependents `b` (mismatching)
and `c` (matching), without dry-run, under `Fix` and under `Upgrade`. -/
theorem fix_upgrade_writeback_witness :
    (update_dependent_versions envOk fixPkg ⟨2, 0, 0, []⟩ false =
      .ok ((), fixPkg.dependents.flatMap (fun dep =>
        if !dep.req.matchesVersion ⟨2, 0, 0, []⟩ && !false then
          [Effect.setDependencyVersion dep.pkgManifestPath fixPkg.name
            (semverToString ⟨2, 0, 0, []⟩)]
        else []))) ∧
    (update_dependent_versions envOk upgradePkg ⟨2, 0, 0, []⟩ false =
      .ok ((), upgradePkg.dependents.flatMap (fun dep =>
        if !false then
          [Effect.setDependencyVersion dep.pkgManifestPath upgradePkg.name
            (semverToString ⟨2, 0, 0, []⟩)]
        else []))) :=
  ⟨(fix_upgrade_writeback envOk fixPkg ⟨2, 0, 0, []⟩ false
      (fun _ => rfl)).1 rfl,
   (fix_upgrade_writeback envOk upgradePkg ⟨2, 0, 0, []⟩ false
      (fun _ => rfl)).2 rfl⟩

/-! ### Sorter lemmas -/

theorem sort_workspace_inner_zero (g : Graph) (pkg : Nat)
    (st : List Nat × List Nat) : sort_workspace_inner g 0 pkg st = st := by
  simp [sort_workspace_inner]

theorem sort_workspace_inner_succ (g : Graph) (fuel pkg : Nat)
    (st : List Nat × List Nat) :
    sort_workspace_inner g (fuel + 1) pkg st =
      if pkg ∈ st.1 then st
      else
        ((sort_workspace_deps g fuel
            ((g.deps pkg).filter (fun d => d ∈ g.members))
            (pkg :: st.1, st.2)).1,
         (sort_workspace_deps g fuel
            ((g.deps pkg).filter (fun d => d ∈ g.members))
            (pkg :: st.1, st.2)).2 ++ [pkg]) := by
  rw [sort_workspace_inner]
  rfl

theorem sort_workspace_deps_nil (g : Graph) (fuel : Nat)
    (st : List Nat × List Nat) : sort_workspace_deps g fuel [] st = st := rfl

theorem sort_workspace_deps_cons (g : Graph) (fuel d : Nat) (ds : List Nat)
    (st : List Nat × List Nat) :
    sort_workspace_deps g fuel (d :: ds) st =
      sort_workspace_deps g fuel ds (sort_workspace_inner g fuel d st) := rfl

theorem ListBefore.append_right {l : List Nat} {b a : Nat}
    (h : ListBefore l b a) (l' : List Nat) : ListBefore (l ++ l') b a := by
  obtain ⟨l₁, l₂, l₃, rfl⟩ := h
  exact ⟨l₁, l₂, l₃ ++ l', by simp⟩

theorem ListBefore.of_mem_append {l : List Nat} {b a : Nat} (h : b ∈ l) :
    ListBefore (l ++ [a]) b a := by
  obtain ⟨s, t, rfl⟩ := List.append_of_mem h
  exact ⟨s, t, [], by simp⟩

theorem CorePost.of_inv {g : Graph} {st : List Nat × List Nat}
    (hinv : SortInv g st) : CorePost g st st := by
  refine ⟨fun x hx => hx, ⟨[], by simp⟩, fun x hx => Or.inl hx,
    fun x => Iff.rfl, hinv⟩

theorem CorePost.trans {g : Graph} {st₁ st₂ st₃ : List Nat × List Nat}
    (h₁ : CorePost g st₁ st₂) (h₂ : CorePost g st₂ st₃) :
    CorePost g st₁ st₃ := by
  obtain ⟨m₁, ⟨d₁, hd₁, hn₁⟩, r₁, gr₁, i₁⟩ := h₁
  obtain ⟨m₂, ⟨d₂, hd₂, hn₂⟩, r₂, gr₂, i₂⟩ := h₂
  refine ⟨fun x hx => m₂ x (m₁ x hx), ⟨d₁ ++ d₂, ?_, ?_⟩, ?_, ?_, i₂⟩
  · rw [hd₂, hd₁, List.append_assoc]
  · intro x hx
    rcases List.mem_append.mp hx with hx | hx
    · exact hn₁ x hx
    · intro hmem
      exact hn₂ x hx (m₁ x hmem)
  · intro x hx
    rcases r₂ x hx with hx' | hx'
    · rcases r₁ x hx' with h | h
      · exact Or.inl h
      · refine Or.inr ?_
        rw [hd₂]
        exact List.mem_append.mpr (Or.inl h)
    · exact Or.inr hx'
  · intro x
    exact (gr₂ x).trans (gr₁ x)

theorem countP_lt_of_witness {l : List Nat} {p q : Nat → Bool}
    (hsub : ∀ x ∈ l, q x = true → p x = true) {a : Nat} (ha : a ∈ l)
    (hpa : p a = true) (hqa : q a = false) :
    l.countP q < l.countP p := by
  induction l with
  | nil => cases ha
  | cons x xs ih =>
    have hsub' : ∀ y ∈ xs, q y = true → p y = true :=
      fun y hy => hsub y (List.mem_cons_of_mem x hy)
    have hmono : xs.countP q ≤ xs.countP p := by
      apply List.countP_mono_left
      intro y hy
      exact hsub' y hy
    rcases List.mem_cons.mp ha with rfl | ha'
    · rw [List.countP_cons_of_neg _ _ (by simp [hqa]),
        List.countP_cons_of_pos _ _ hpa]
      exact Nat.lt_succ_of_le hmono
    · have := ih (fun y hy h => hsub y (List.mem_cons_of_mem x hy) h) ha'
      rcases hq : q x with _ | _
      · rw [List.countP_cons_of_neg _ _ (by simp [hq])]
        rcases hp : p x with _ | _
        · rw [List.countP_cons_of_neg _ _ (by simp [hp])]
          exact this
        · rw [List.countP_cons_of_pos _ _ hp]
          exact Nat.lt_succ_of_lt this
      · have hp : p x = true := hsub x (List.mem_cons_self x xs) hq
        rw [List.countP_cons_of_pos _ _ hq, List.countP_cons_of_pos _ _ hp]
        exact Nat.succ_lt_succ this

theorem unprocCount_lt_insert {g : Graph} {st : List Nat × List Nat}
    {pkg : Nat} (hmem : pkg ∈ g.members) (hproc : pkg ∉ st.1) :
    unprocCount g (pkg :: st.1, st.2) < unprocCount g st := by
  apply countP_lt_of_witness (a := pkg)
  · intro x _ hq
    simp only [Bool.not_eq_true', decide_eq_false_iff_not] at hq ⊢
    intro hx
    exact hq (List.mem_cons_of_mem pkg hx)
  · exact hmem
  · simp [hproc]
  · simp

theorem unprocCount_le_of_sub {g : Graph} {st st' : List Nat × List Nat}
    (h : ∀ x ∈ st.1, x ∈ st'.1) :
    unprocCount g st' ≤ unprocCount g st := by
  apply List.countP_mono_left
  intro x _ hq
  simp only [Bool.not_eq_true', decide_eq_false_iff_not] at hq ⊢
  intro hx
  exact hq (h x hx)

/-- The traversal invariant: one `sort_workspace_inner` call satisfies
`CorePost` and records (or finds gray) its package; one
`sort_workspace_deps` call satisfies `CorePost` and records (or finds
gray, at entry) every listed package. Proved by induction on the fuel,
which strictly exceeds the number of unprocessed members throughout. -/
theorem sort_spec (g : Graph) (hacyc : g.Acyclic) : ∀ fuel : Nat,
    (∀ pkg st, pkg ∈ g.members → SortInv g st →
      (∀ x, grayOf st x → Relation.TransGen g.Edge x pkg) →
      unprocCount g st < fuel →
      CorePost g st (sort_workspace_inner g fuel pkg st) ∧
      pkg ∈ (sort_workspace_inner g fuel pkg st).1 ∧
      (pkg ∈ (sort_workspace_inner g fuel pkg st).2 ∨ grayOf st pkg)) ∧
    (∀ ds st, (∀ d ∈ ds, d ∈ g.members) → SortInv g st →
      (∀ x, grayOf st x → ∀ d ∈ ds, Relation.TransGen g.Edge x d) →
      unprocCount g st < fuel →
      CorePost g st (sort_workspace_deps g fuel ds st) ∧
      (∀ d ∈ ds, d ∈ (sort_workspace_deps g fuel ds st).2 ∨ grayOf st d)) := by
  intro fuel
  induction fuel with
  | zero =>
    constructor
    · intro pkg st _ _ _ hfuel
      exact absurd hfuel (Nat.not_lt_zero _)
    · intro ds st _ _ _ hfuel
      exact absurd hfuel (Nat.not_lt_zero _)
  | succ m ih =>
    have hA : ∀ pkg st, pkg ∈ g.members → SortInv g st →
        (∀ x, grayOf st x → Relation.TransGen g.Edge x pkg) →
        unprocCount g st < m + 1 →
        CorePost g st (sort_workspace_inner g (m + 1) pkg st) ∧
        pkg ∈ (sort_workspace_inner g (m + 1) pkg st).1 ∧
        (pkg ∈ (sort_workspace_inner g (m + 1) pkg st).2 ∨ grayOf st pkg) := by
      intro pkg st hmem hinv hreach hfuel
      rw [sort_workspace_inner_succ]
      by_cases hproc : pkg ∈ st.1
      · rw [if_pos hproc]
        refine ⟨CorePost.of_inv hinv, hproc, ?_⟩
        by_cases hs : pkg ∈ st.2
        · exact Or.inl hs
        · exact Or.inr ⟨hproc, hs⟩
      · rw [if_neg hproc]
        set ds := (g.deps pkg).filter (fun d => d ∈ g.members) with hds
        set st0 : List Nat × List Nat := (pkg :: st.1, st.2) with hst0
        have hdsm : ∀ d ∈ ds, d ∈ g.members := by
          intro d hd
          rw [hds] at hd
          simpa using (List.mem_filter.mp hd).2
        have hedge : ∀ d ∈ ds, g.Edge pkg d := by
          intro d hd
          rw [hds] at hd
          refine ⟨hmem, (List.mem_filter.mp hd).1, ?_⟩
          simpa using (List.mem_filter.mp hd).2
        have hpkg0 : pkg ∈ st0.1 := List.mem_cons_self _ _
        have hinv0 : SortInv g st0 := by
          refine ⟨?_, ?_, hinv.sortedNodup, hinv.good⟩
          · intro x hx
            exact List.mem_cons_of_mem pkg (hinv.sortedSubProc x hx)
          · intro x hx
            rcases List.mem_cons.mp hx with rfl | hx'
            · exact hmem
            · exact hinv.procSubMembers x hx'
        have hreach0 : ∀ x, grayOf st0 x →
            ∀ d ∈ ds, Relation.TransGen g.Edge x d := by
          intro x hx d hd
          obtain ⟨hx1, hx2⟩ := hx
          rcases List.mem_cons.mp hx1 with rfl | hx1'
          · exact Relation.TransGen.single (hedge d hd)
          · exact Relation.TransGen.tail (hreach x ⟨hx1', hx2⟩) (hedge d hd)
        have hfuel0 : unprocCount g st0 < m :=
          Nat.lt_of_lt_of_le (unprocCount_lt_insert hmem hproc)
            (Nat.lt_succ_iff.mp hfuel)
        obtain ⟨hcore, hdisp⟩ := ih.2 ds st0 hdsm hinv0 hreach0 hfuel0
        set st' := sort_workspace_deps g m ds st0 with hst'
        obtain ⟨hm1, ⟨delta, hdelta, hdnew⟩, hr1, hg1, hi1⟩ := hcore
        have hpkgProc : pkg ∈ st'.1 := hm1 pkg hpkg0
        have hpkgNotSorted : pkg ∉ st'.2 := by
          rw [hdelta]
          intro hctr
          rcases List.mem_append.mp hctr with hctr | hctr
          · exact hproc (hinv.sortedSubProc pkg hctr)
          · exact hdnew pkg hctr hpkg0
        have hnodupF : (st'.2 ++ [pkg]).Nodup := by
          rw [List.nodup_append]
          refine ⟨hi1.sortedNodup, List.nodup_singleton _, ?_⟩
          intro x hx hx'
          rcases List.mem_singleton.mp hx' with rfl
          exact hpkgNotSorted hx
        refine ⟨⟨?_, ?_, ?_, ?_, ?_⟩, hpkgProc, ?_⟩
        · intro x hx
          exact hm1 x (List.mem_cons_of_mem pkg hx)
        · refine ⟨delta ++ [pkg], ?_, ?_⟩
          · dsimp only
            rw [hdelta]
            simp [List.append_assoc]
          · intro x hx
            rcases List.mem_append.mp hx with hx | hx
            · intro hctr
              exact hdnew x hx (List.mem_cons_of_mem pkg hctr)
            · rcases List.mem_singleton.mp hx with rfl
              exact hproc
        · intro x hx
          dsimp only at hx ⊢
          rcases hr1 x hx with hx' | hx'
          · rcases List.mem_cons.mp hx' with rfl | hx''
            · exact Or.inr (List.mem_append.mpr (Or.inr (List.mem_singleton.mpr rfl)))
            · exact Or.inl hx''
          · exact Or.inr (List.mem_append.mpr (Or.inl hx'))
        · intro x
          dsimp only [grayOf]
          constructor
          · rintro ⟨hx1, hx2⟩
            have hxne : x ≠ pkg := by
              intro h
              subst h
              exact hx2 (List.mem_append.mpr (Or.inr (List.mem_singleton.mpr rfl)))
            have hxs : x ∉ st'.2 := fun h => hx2 (List.mem_append.mpr (Or.inl h))
            have := (hg1 x).mp ⟨hx1, hxs⟩
            obtain ⟨hy1, hy2⟩ := this
            rcases List.mem_cons.mp hy1 with h | h
            · exact absurd h hxne
            · exact ⟨h, hy2⟩
          · rintro ⟨hx1, hx2⟩
            have hxne : x ≠ pkg := fun h => hproc (h ▸ hx1)
            have := (hg1 x).mpr ⟨List.mem_cons_of_mem pkg hx1, hx2⟩
            obtain ⟨hy1, hy2⟩ := this
            refine ⟨hy1, ?_⟩
            intro hctr
            rcases List.mem_append.mp hctr with h | h
            · exact hy2 h
            · exact hxne (List.mem_singleton.mp h)
        · refine ⟨?_, ?_, hnodupF, ?_⟩
          · intro x hx
            dsimp only at hx ⊢
            rcases List.mem_append.mp hx with h | h
            · exact hi1.sortedSubProc x h
            · rcases List.mem_singleton.mp h with rfl
              exact hpkgProc
          · intro x hx
            exact hi1.procSubMembers x hx
          · intro a b heab ha
            dsimp only at ha ⊢
            rcases List.mem_append.mp ha with ha' | ha'
            · exact (hi1.good a b heab ha').append_right [pkg]
            · rcases List.mem_singleton.mp ha' with rfl
              have hbds : b ∈ ds := by
                rw [hds]
                rw [List.mem_filter]
                exact ⟨heab.2.1, by simpa using heab.2.2⟩
              rcases hdisp b hbds with hbs | hbg
              · exact ListBefore.of_mem_append hbs
              · obtain ⟨hb1, hb2⟩ := hbg
                rcases List.mem_cons.mp hb1 with rfl | hb1'
                · exact absurd (Relation.TransGen.single heab) (hacyc b)
                · exact absurd
                    (Relation.TransGen.tail (hreach b ⟨hb1', hb2⟩) heab)
                    (hacyc b)
        · exact Or.inl (List.mem_append.mpr (Or.inr (List.mem_singleton.mpr rfl)))
    refine ⟨hA, ?_⟩
    intro ds
    induction ds with
    | nil =>
      intro st _ hinv _ _
      rw [sort_workspace_deps_nil]
      exact ⟨CorePost.of_inv hinv, by intro d hd; cases hd⟩
    | cons d ds ihds =>
      intro st hmemds hinv hreach hfuel
      rw [sort_workspace_deps_cons]
      have hd0 : d ∈ g.members := hmemds d (List.mem_cons_self _ _)
      obtain ⟨hcore1, _, hdisp1⟩ := hA d st hd0 hinv
        (fun x hx => hreach x hx d (List.mem_cons_self _ _)) hfuel
      set stA := sort_workspace_inner g (m + 1) d st with hstA
      have hinvA : SortInv g stA := hcore1.2.2.2.2
      have hreachA : ∀ x, grayOf stA x →
          ∀ d' ∈ ds, Relation.TransGen g.Edge x d' := by
        intro x hx d' hd'
        exact hreach x ((hcore1.2.2.2.1 x).mp hx) d' (List.mem_cons_of_mem _ hd')
      have hfuelA : unprocCount g stA < m + 1 :=
        Nat.lt_of_le_of_lt (unprocCount_le_of_sub hcore1.1) hfuel
      obtain ⟨hcore2, hdisp2⟩ := ihds stA
        (fun d' hd' => hmemds d' (List.mem_cons_of_mem _ hd')) hinvA hreachA hfuelA
      refine ⟨hcore1.trans hcore2, ?_⟩
      intro d' hd'
      rcases List.mem_cons.mp hd' with rfl | hd''
      · rcases hdisp1 with hds' | hgray
        · left
          obtain ⟨δ₂, hδ₂, _⟩ := hcore2.2.1
          rw [hδ₂]
          exact List.mem_append.mpr (Or.inl hds')
        · exact Or.inr hgray
      · rcases hdisp2 d' hd'' with hmem' | hgray'
        · exact Or.inl hmem'
        · exact Or.inr ((hcore1.2.2.2.1 d').mp hgray')

/-- C2: for every acyclic workspace graph, `sort_workspace` places every
dependency before each of its dependents, contains exactly the workspace
members, each exactly once; and on the diamond `A→B, A→C, B→D, C→D` it
records `D` once, before `B` and `C` (output `[D, B, C, A]`). -/
theorem sort_workspace_topological (g : Graph) (hacyc : g.Acyclic) :
    (∀ a b, g.Edge a b → ListBefore (sort_workspace g) b a) ∧
    (∀ m ∈ g.members, (sort_workspace g).count m = 1) ∧
    (∀ x ∈ sort_workspace g, x ∈ g.members) ∧
    sort_workspace diamond = [3, 1, 2, 0] := by
  have hmain := (sort_spec g hacyc (g.members.length + 1)).2 g.members ([], [])
    (fun d hd => hd)
    ⟨fun x hx => absurd hx (List.not_mem_nil x),
     fun x hx => absurd hx (List.not_mem_nil x),
     List.nodup_nil,
     fun a b _ ha => absurd ha (List.not_mem_nil a)⟩
    (fun x hx => absurd hx.1 (List.not_mem_nil x))
    (Nat.lt_succ_of_le (List.countP_le_length _))
  obtain ⟨⟨_, _, _, _, hinvF⟩, hdispF⟩ := hmain
  have hcomplete : ∀ m ∈ g.members, m ∈ sort_workspace g := by
    intro m hm
    rcases hdispF m hm with h | h
    · exact h
    · exact absurd h.1 (List.not_mem_nil m)
  refine ⟨?_, ?_, ?_, by rfl⟩
  · intro a b heab
    exact hinvF.good a b heab (hcomplete a heab.1)
  · intro m hm
    exact List.count_eq_one_of_mem hinvF.sortedNodup (hcomplete m hm)
  · intro x hx
    exact hinvF.procSubMembers x (hinvF.sortedSubProc x hx)

/-- A graph admitting a rank function that strictly decreases along
edges is acyclic. -/
theorem acyclic_of_rank (g : Graph) (rank : Nat → Nat)
    (h : ∀ a b, g.Edge a b → rank b < rank a) : g.Acyclic := by
  intro a hcyc
  have key : ∀ x y, Relation.TransGen g.Edge x y → rank y < rank x := by
    intro x y hxy
    induction hxy with
    | single h' => exact h _ _ h'
    | tail _ h' ih => exact lt_trans (h _ _ h') ih
  exact lt_irrefl _ (key a a hcyc)

/-- The diamond workspace is acyclic. -/
theorem diamond_acyclic : diamond.Acyclic := by
  apply acyclic_of_rank diamond
    (fun n => if n = 0 then 2 else if n = 3 then 0 else 1)
  rintro a b ⟨ha, hb, -⟩
  simp only [diamond, List.mem_cons, List.mem_singleton,
    List.not_mem_nil, or_false] at ha
  rcases ha with rfl | rfl | rfl | rfl
  · simp [diamond] at hb
    rcases hb with rfl | rfl <;> decide
  · simp [diamond] at hb
    subst hb
    decide
  · simp [diamond] at hb
    subst hb
    decide
  · simp [diamond] at hb

/-- Witness for C2 at the diamond workspace. -/
theorem sort_workspace_topological_witness :
    (∀ a b, diamond.Edge a b → ListBefore (sort_workspace diamond) b a) ∧
    (∀ m ∈ diamond.members, (sort_workspace diamond).count m = 1) ∧
    (∀ x ∈ sort_workspace diamond, x ∈ diamond.members) ∧
    sort_workspace diamond = [3, 1, 2, 0] :=
  sort_workspace_topological diamond diamond_acyclic

/-! ### Pipeline lemmas -/

theorem computeDirtyLoop_trace (env : Env) :
    ∀ pkgs d t, computeDirtyLoop env pkgs = .ok (d, t) →
      ∀ e ∈ t, ∃ p, e = Effect.isDirty p := by
  intro pkgs
  induction pkgs with
  | nil =>
    intro d t h e he
    simp only [computeDirtyLoop] at h
    cases h
    cases he
  | cons pkg pkgs ih =>
    intro d t h e he
    simp only [computeDirtyLoop, Bind.bind, Except.bind] at h
    rcases h1 : env.isDirty pkg.package_path with e₁ | d₁ <;> rw [h1] at h
    · cases h
    · rcases h2 : computeDirtyLoop env pkgs with e₂ | ⟨d₂, t₂⟩ <;> rw [h2] at h
      · cases h
      · simp only [Except.ok.injEq, Prod.mk.injEq] at h
        obtain ⟨-, ht⟩ := h
        subst ht
        rcases List.mem_cons.mp he with rfl | he'
        · exact ⟨pkg.package_path, rfl⟩
        · exact ih d₂ t₂ h2 e he'

theorem computeDirty_trace (env : Env) (ws_config : Config) (ws_root : Nat)
    (pkgs : List PackageRelease) (d : Bool) (t : List Effect)
    (h : computeDirty env ws_config ws_root pkgs = .ok (d, t)) :
    ∀ e ∈ t, ∃ p, e = Effect.isDirty p := by
  unfold computeDirty at h
  split at h
  · simp only [Bind.bind, Except.bind] at h
    rcases h1 : env.isDirty ws_root with e₁ | d₁ <;> rw [h1] at h
    · cases h
    · simp only [Except.ok.injEq, Prod.mk.injEq] at h
      obtain ⟨-, ht⟩ := h
      subst ht
      intro e he
      rcases List.mem_singleton.mp he with rfl
      exact ⟨ws_root, rfl⟩
  · exact computeDirtyLoop_trace env pkgs d t h

theorem stepPreflight_code (env : Env) (args : ReleaseOpt)
    (ws_config : Config) (ws_root : Nat) (pkgs : List PackageRelease)
    (c : Nat) (t : List Effect)
    (h : stepPreflight env args ws_config ws_root pkgs = .ok (some c, t)) :
    c = 101 ∧ args.dry_run = false := by
  unfold stepPreflight at h
  split at h
  · cases h
  · simp only [Bind.bind, Except.bind] at h
    repeat' split at h
    all_goals simp only [Except.ok.injEq, Prod.mk.injEq, Option.some.injEq,
      reduceCtorEq] at h
    all_goals first
      | exact h.elim
      | exact h.1.elim
      | (rename_i hcond
         refine ⟨h.1.symm, ?_⟩
         simp only [Bool.and_eq_true, Bool.not_eq_true'] at hcond
         exact hcond.2)

theorem stepConfirm_code (env : Env) (args : ReleaseOpt)
    (pkgs : List PackageRelease) (c : Nat) (t : List Effect)
    (h : stepConfirm env args pkgs = (some c, t)) : c = 0 := by
  unfold stepConfirm at h
  repeat' split at h
  all_goals simp only [Prod.mk.injEq, Option.some.injEq, reduceCtorEq] at h
  all_goals first
    | exact h.elim
    | exact h.1.elim
    | exact h.1.symm

theorem stepCommitPkg_code (env : Env) (args : ReleaseOpt)
    (ws_config : Config) (pkg : PackageRelease) (c : Nat) (sh : Bool)
    (t : List Effect)
    (h : stepCommitPkg env args ws_config pkg = .ok ((some c, sh), t)) :
    c = 107 ∨ c = 102 := by
  unfold stepCommitPkg at h
  rcases hv : pkg.version with _ | version <;> rw [hv] at h <;> dsimp only at h
  · simp at h
  · simp only [Bind.bind, Except.bind] at h
    repeat' split at h
    all_goals simp only [Except.ok.injEq, Prod.mk.injEq, Option.some.injEq,
      reduceCtorEq] at h
    all_goals first
      | exact h.elim
      | exact h.1.1.elim
      | exact Or.inl h.1.1.symm
      | exact Or.inr h.1.1.symm

theorem stepCommitLoop_code (env : Env) (args : ReleaseOpt)
    (ws_config : Config) :
    ∀ pkgs c sh t,
      stepCommitLoop env args ws_config pkgs = .ok ((some c, sh), t) →
      c = 107 ∨ c = 102 := by
  intro pkgs
  induction pkgs with
  | nil =>
    intro c sh t h
    simp [stepCommitLoop] at h
  | cons pkg pkgs ih =>
    intro c sh t h
    simp only [stepCommitLoop, Bind.bind, Except.bind] at h
    rcases h1 : stepCommitPkg env args ws_config pkg with e₁ | ⟨⟨r₁, sh₁⟩, t₁⟩ <;>
      rw [h1] at h <;> dsimp only at h
    · cases h
    · rcases r₁ with _ | c₁
      · dsimp only at h
        rcases h2 : stepCommitLoop env args ws_config pkgs with e₂ | ⟨⟨r₂, sh₂⟩, t₂⟩ <;>
          rw [h2] at h <;> dsimp only at h
        · cases h
        · simp only [Except.ok.injEq, Prod.mk.injEq] at h
          obtain ⟨⟨hr, -⟩, -⟩ := h
          subst hr
          exact ih c sh₂ t₂ h2
      · simp only [Except.ok.injEq, Prod.mk.injEq, Option.some.injEq] at h
        obtain ⟨⟨hr, -⟩, -⟩ := h
        subst hr
        exact stepCommitPkg_code env args ws_config pkg c₁ sh₁ t₁ h1

theorem stepCommit_code (env : Env) (args : ReleaseOpt) (ws_config : Config)
    (ws_root : Nat) (pkgs : List PackageRelease) (c : Nat) (t : List Effect)
    (h : stepCommit env args ws_config ws_root pkgs = .ok (some c, t)) :
    c = 107 ∨ c = 102 := by
  unfold stepCommit git_commit_all at h
  simp only [Bind.bind, Except.bind] at h
  rcases h1 : stepCommitLoop env args ws_config pkgs with e₁ | ⟨⟨r₁, sh₁⟩, t₁⟩ <;>
    rw [h1] at h <;> dsimp only at h
  · cases h
  · rcases r₁ with _ | c₁
    · dsimp only at h
      repeat' split at h
      all_goals simp only [Except.ok.injEq, Prod.mk.injEq, Option.some.injEq,
        reduceCtorEq] at h
      all_goals first
        | exact h.elim
        | exact h.1.elim
        | exact Or.inr h.1.symm
    · simp only [Except.ok.injEq, Prod.mk.injEq, Option.some.injEq] at h
      obtain ⟨hr, -⟩ := h
      subst hr
      exact stepCommitLoop_code env args ws_config pkgs c₁ sh₁ t₁ h1

theorem stepPublishPkg_code (env : Env) (args : ReleaseOpt)
    (pkg : PackageRelease) (c : Nat) (t : List Effect)
    (h : stepPublishPkg env args pkg = .ok (some c, t)) : c = 103 := by
  unfold stepPublishPkg cargo_publish cargo_wait_for_publish at h
  simp only [Bind.bind, Except.bind] at h
  repeat' split at h
  all_goals simp only [Except.ok.injEq, Prod.mk.injEq, Option.some.injEq,
    reduceCtorEq] at h
  all_goals first
    | exact h.elim
    | exact h.1.elim
    | exact h.1.symm

theorem stepPublishLoop_code (env : Env) (args : ReleaseOpt) :
    ∀ pkgs c t, stepPublishLoop env args pkgs = .ok (some c, t) →
      c = 103 := by
  intro pkgs
  induction pkgs with
  | nil =>
    intro c t h
    simp [stepPublishLoop] at h
  | cons pkg pkgs ih =>
    intro c t h
    simp only [stepPublishLoop, Bind.bind, Except.bind] at h
    rcases h1 : stepPublishPkg env args pkg with e₁ | ⟨r₁, t₁⟩ <;>
      rw [h1] at h <;> dsimp only at h
    · cases h
    · rcases r₁ with _ | c₁
      · dsimp only at h
        rcases h2 : stepPublishLoop env args pkgs with e₂ | ⟨r₂, t₂⟩ <;>
          rw [h2] at h <;> dsimp only at h
        · cases h
        · simp only [Except.ok.injEq, Prod.mk.injEq] at h
          obtain ⟨hr, -⟩ := h
          subst hr
          exact ih c t₂ h2
      · simp only [Except.ok.injEq, Prod.mk.injEq, Option.some.injEq] at h
        obtain ⟨hr, -⟩ := h
        subst hr
        exact stepPublishPkg_code env args pkg c₁ t₁ h1

theorem stepTagPkg_code (env : Env) (args : ReleaseOpt)
    (pkg : PackageRelease) (c : Nat) (t : List Effect)
    (h : stepTagPkg env args pkg = .ok (some c, t)) : c = 104 := by
  unfold stepTagPkg git_tag at h
  rcases hv : pkg.tag with _ | tag_name <;> rw [hv] at h <;> dsimp only at h
  · simp at h
  · simp only [Bind.bind, Except.bind] at h
    repeat' split at h
    all_goals simp only [Except.ok.injEq, Prod.mk.injEq, Option.some.injEq,
      reduceCtorEq] at h
    all_goals first
      | exact h.elim
      | exact h.1.elim
      | exact h.1.symm

theorem stepTagLoop_code (env : Env) (args : ReleaseOpt) :
    ∀ pkgs c t, stepTagLoop env args pkgs = .ok (some c, t) → c = 104 := by
  intro pkgs
  induction pkgs with
  | nil =>
    intro c t h
    simp [stepTagLoop] at h
  | cons pkg pkgs ih =>
    intro c t h
    simp only [stepTagLoop, Bind.bind, Except.bind] at h
    rcases h1 : stepTagPkg env args pkg with e₁ | ⟨r₁, t₁⟩ <;>
      rw [h1] at h <;> dsimp only at h
    · cases h
    · rcases r₁ with _ | c₁
      · dsimp only at h
        rcases h2 : stepTagLoop env args pkgs with e₂ | ⟨r₂, t₂⟩ <;>
          rw [h2] at h <;> dsimp only at h
        · cases h
        · simp only [Except.ok.injEq, Prod.mk.injEq] at h
          obtain ⟨hr, -⟩ := h
          subst hr
          exact ih c t₂ h2
      · simp only [Except.ok.injEq, Prod.mk.injEq, Option.some.injEq] at h
        obtain ⟨hr, -⟩ := h
        subst hr
        exact stepTagPkg_code env args pkg c₁ t₁ h1

theorem stepBumpPkg_code (env : Env) (args : ReleaseOpt)
    (ws_config : Config) (pkg : PackageRelease) (c : Nat) (sh : Bool)
    (t : List Effect)
    (h : stepBumpPkg env args ws_config pkg = .ok ((some c, sh), t)) :
    c = 105 := by
  unfold stepBumpPkg git_commit_all at h
  rcases hv : pkg.post_version with _ | version <;> rw [hv] at h <;>
    dsimp only at h
  · simp at h
  · simp only [Bind.bind, Except.bind] at h
    repeat' split at h
    all_goals simp only [Except.ok.injEq, Prod.mk.injEq, Option.some.injEq,
      reduceCtorEq] at h
    all_goals first
      | exact h.elim
      | exact h.1.1.elim
      | exact h.1.1.symm

theorem stepBumpLoop_code (env : Env) (args : ReleaseOpt)
    (ws_config : Config) :
    ∀ pkgs c sh t,
      stepBumpLoop env args ws_config pkgs = .ok ((some c, sh), t) →
      c = 105 := by
  intro pkgs
  induction pkgs with
  | nil =>
    intro c sh t h
    simp [stepBumpLoop] at h
  | cons pkg pkgs ih =>
    intro c sh t h
    simp only [stepBumpLoop, Bind.bind, Except.bind] at h
    rcases h1 : stepBumpPkg env args ws_config pkg with e₁ | ⟨⟨r₁, sh₁⟩, t₁⟩ <;>
      rw [h1] at h <;> dsimp only at h
    · cases h
    · rcases r₁ with _ | c₁
      · dsimp only at h
        rcases h2 : stepBumpLoop env args ws_config pkgs with e₂ | ⟨⟨r₂, sh₂⟩, t₂⟩ <;>
          rw [h2] at h <;> dsimp only at h
        · cases h
        · simp only [Except.ok.injEq, Prod.mk.injEq] at h
          obtain ⟨⟨hr, -⟩, -⟩ := h
          subst hr
          exact ih c sh₂ t₂ h2
      · simp only [Except.ok.injEq, Prod.mk.injEq, Option.some.injEq] at h
        obtain ⟨⟨hr, -⟩, -⟩ := h
        subst hr
        exact stepBumpPkg_code env args ws_config pkg c₁ sh₁ t₁ h1

theorem stepBump_code (env : Env) (args : ReleaseOpt) (ws_config : Config)
    (ws_root : Nat) (pkgs : List PackageRelease) (c : Nat) (t : List Effect)
    (h : stepBump env args ws_config ws_root pkgs = .ok (some c, t)) :
    c = 105 ∨ c = 102 := by
  unfold stepBump git_commit_all at h
  simp only [Bind.bind, Except.bind] at h
  rcases h1 : stepBumpLoop env args ws_config pkgs with e₁ | ⟨⟨r₁, sh₁⟩, t₁⟩ <;>
    rw [h1] at h <;> dsimp only at h
  · cases h
  · rcases r₁ with _ | c₁
    · dsimp only at h
      repeat' split at h
      all_goals simp only [Except.ok.injEq, Prod.mk.injEq, Option.some.injEq,
        reduceCtorEq] at h
      all_goals first
        | exact h.elim
        | exact h.1.elim
        | exact Or.inr h.1.symm
    · simp only [Except.ok.injEq, Prod.mk.injEq, Option.some.injEq] at h
      obtain ⟨hr, -⟩ := h
      subst hr
      exact Or.inl (stepBumpLoop_code env args ws_config pkgs c₁ sh₁ t₁ h1)

theorem stepPushPkg_code (env : Env) (args : ReleaseOpt)
    (ws_config : Config) (shared_push : Bool) (pkg : PackageRelease)
    (c : Nat) (t : List Effect)
    (h : stepPushPkg env args ws_config shared_push pkg = .ok (some c, t)) :
    c = 106 := by
  unfold stepPushPkg pushTagPart git_push_tag git_push at h
  simp only [Bind.bind, Except.bind] at h
  repeat' split at h
  all_goals simp only [Except.ok.injEq, Prod.mk.injEq, Option.some.injEq,
    reduceCtorEq] at h
  all_goals first
    | exact h.elim
    | exact h.1.elim
    | exact h.1.symm

theorem stepPushLoop_code (env : Env) (args : ReleaseOpt)
    (ws_config : Config) (shared_push : Bool) :
    ∀ pkgs c t,
      stepPushLoop env args ws_config shared_push pkgs = .ok (some c, t) →
      c = 106 := by
  intro pkgs
  induction pkgs with
  | nil =>
    intro c t h
    simp [stepPushLoop] at h
  | cons pkg pkgs ih =>
    intro c t h
    simp only [stepPushLoop, Bind.bind, Except.bind] at h
    rcases h1 : stepPushPkg env args ws_config shared_push pkg with e₁ | ⟨r₁, t₁⟩ <;>
      rw [h1] at h <;> dsimp only at h
    · cases h
    · rcases r₁ with _ | c₁
      · dsimp only at h
        rcases h2 : stepPushLoop env args ws_config shared_push pkgs with e₂ | ⟨r₂, t₂⟩ <;>
          rw [h2] at h <;> dsimp only at h
        · cases h
        · simp only [Except.ok.injEq, Prod.mk.injEq] at h
          obtain ⟨hr, -⟩ := h
          subst hr
          exact ih c t₂ h2
      · simp only [Except.ok.injEq, Prod.mk.injEq, Option.some.injEq] at h
        obtain ⟨hr, -⟩ := h
        subst hr
        exact stepPushPkg_code env args ws_config shared_push pkg c₁ t₁ h1

theorem stepPush_code (env : Env) (args : ReleaseOpt) (ws_config : Config)
    (ws_root : Nat) (pkgs : List PackageRelease) (c : Nat) (t : List Effect)
    (h : stepPush env args ws_config ws_root pkgs = .ok (some c, t)) :
    c = 106 := by
  unfold stepPush git_push at h
  split at h
  · simp only [Bind.bind, Except.bind] at h
    rcases h1 : stepPushLoop env args ws_config ws_config.consolidate_pushes pkgs
        with e₁ | ⟨r₁, t₁⟩ <;> rw [h1] at h <;> dsimp only at h
    · cases h
    · rcases r₁ with _ | c₁
      · dsimp only at h
        repeat' split at h
        all_goals simp only [Except.ok.injEq, Prod.mk.injEq, Option.some.injEq,
          reduceCtorEq] at h
        all_goals first
          | exact h.elim
          | exact h.1.elim
          | exact h.1.symm
      · simp only [Except.ok.injEq, Prod.mk.injEq, Option.some.injEq] at h
        obtain ⟨hr, -⟩ := h
        subst hr
        exact stepPushLoop_code env args ws_config ws_config.consolidate_pushes
          pkgs c₁ t₁ h1
  · simp at h

/-- The pipeline returns exit code 101 only from the dirty-tree abort,
which fires only outside dry-run. -/
theorem release_101_imp_not_dry (env : Env) (args : ReleaseOpt)
    (ws_config : Config) (ws_root : Nat) (pkgs : List PackageRelease)
    (c : Nat) (t : List Effect)
    (h : release_packages env args ws_config ws_root pkgs = .ok (c, t))
    (hc : c = 101) : args.dry_run = false := by
  subst hc
  unfold release_packages at h
  simp only [Bind.bind, Except.bind] at h
  rcases h0 : stepPreflight env args ws_config ws_root pkgs with e | ⟨r₀, t₀⟩ <;>
    rw [h0] at h <;> dsimp only at h
  · cases h
  · rcases r₀ with _ | code
    · dsimp only at h
      rcases h1 : stepConfirm env args pkgs with ⟨r₁, t₁⟩
      rw [h1] at h
      dsimp only at h
      rcases r₁ with _ | code1
      · dsimp only at h
        rcases h2 : stepCommit env args ws_config ws_root pkgs with e | ⟨r₂, t₂⟩ <;>
          rw [h2] at h <;> dsimp only at h
        · cases h
        · rcases r₂ with _ | code2
          · dsimp only at h
            rcases h3 : stepPublishLoop env args pkgs with e | ⟨r₃, t₃⟩ <;>
              rw [h3] at h <;> dsimp only at h
            · cases h
            · rcases r₃ with _ | code3
              · dsimp only at h
                rcases h5 : stepTagLoop env args pkgs with e | ⟨r₅, t₅⟩ <;>
                  rw [h5] at h <;> dsimp only at h
                · cases h
                · rcases r₅ with _ | code5
                  · dsimp only at h
                    rcases h6 : stepBump env args ws_config ws_root pkgs with
                        e | ⟨r₆, t₆⟩ <;> rw [h6] at h <;> dsimp only at h
                    · cases h
                    · rcases r₆ with _ | code6
                      · dsimp only at h
                        rcases h7 : stepPush env args ws_config ws_root pkgs with
                            e | ⟨r₇, t₇⟩ <;> rw [h7] at h <;> dsimp only at h
                        · cases h
                        · rcases r₇ with _ | code7
                          · simp at h
                          · simp only [Except.ok.injEq, Prod.mk.injEq] at h
                            obtain ⟨hr, -⟩ := h
                            have := stepPush_code env args ws_config ws_root
                              pkgs code7 t₇ h7
                            omega
                      · simp only [Except.ok.injEq, Prod.mk.injEq] at h
                        obtain ⟨hr, -⟩ := h
                        have := stepBump_code env args ws_config ws_root pkgs
                          code6 t₆ h6
                        rcases this with h' | h' <;> omega
                  · simp only [Except.ok.injEq, Prod.mk.injEq] at h
                    obtain ⟨hr, -⟩ := h
                    have := stepTagLoop_code env args pkgs code5 t₅ h5
                    omega
              · simp only [Except.ok.injEq, Prod.mk.injEq] at h
                obtain ⟨hr, -⟩ := h
                have := stepPublishLoop_code env args pkgs code3 t₃ h3
                omega
          · simp only [Except.ok.injEq, Prod.mk.injEq] at h
            obtain ⟨hr, -⟩ := h
            have := stepCommit_code env args ws_config ws_root pkgs code2 t₂ h2
            rcases this with h' | h' <;> omega
      · simp only [Except.ok.injEq, Prod.mk.injEq] at h
        obtain ⟨hr, -⟩ := h
        have := stepConfirm_code env args pkgs code1 t₁ h1
        omega
    · simp only [Except.ok.injEq, Prod.mk.injEq] at h
      obtain ⟨hr, -⟩ := h
      subst hr
      exact (stepPreflight_code env args ws_config ws_root pkgs _ t₀ h0).2

/-- C7: when the working tree is dirty, a run with dry-run disabled
aborts during Preflight with the dirty-tree status 101 before any
mutating call (its trace holds only the tool check and the dirtiness
queries), while a dry-run still performs the dirtiness check yet
proceeds past it: Preflight never yields 101 and the whole pipeline can
never exit with 101. -/
theorem dirty_tree_abort (env : Env) (args : ReleaseOpt) (ws_config : Config)
    (ws_root : Nat) (pkgs : List PackageRelease) (t₁ : List Effect)
    (hgit : env.gitVersionOk = true)
    (hdirty : computeDirty env ws_config ws_root pkgs = .ok (true, t₁)) :
    (args.dry_run = false →
      release_packages env args ws_config ws_root pkgs =
        .ok (101, Effect.gitVersion :: t₁) ∧
      ∀ e ∈ Effect.gitVersion :: t₁, e.isMutation = false) ∧
    (args.dry_run = true →
      (∀ r t, stepPreflight env args ws_config ws_root pkgs = .ok (r, t) →
        r ≠ some 101 ∧ ∀ e ∈ t₁, e ∈ t) ∧
      ∀ c t, release_packages env args ws_config ws_root pkgs = .ok (c, t) →
        c ≠ 101) := by
  have htrace : ∀ e ∈ Effect.gitVersion :: t₁, e.isMutation = false := by
    intro e he
    rcases List.mem_cons.mp he with rfl | he'
    · rfl
    · obtain ⟨p, rfl⟩ :=
        computeDirty_trace env ws_config ws_root pkgs true t₁ hdirty e he'
      rfl
  constructor
  · intro hdry
    have hpre : stepPreflight env args ws_config ws_root pkgs =
        .ok (some 101, Effect.gitVersion :: t₁) := by
      unfold stepPreflight
      rw [hgit]
      simp only [Bool.not_true, Bool.false_eq_true, if_false, Bind.bind,
        Except.bind]
      rw [hdirty]
      dsimp only
      rw [hdry]
      simp
    refine ⟨?_, htrace⟩
    unfold release_packages
    simp only [Bind.bind, Except.bind]
    rw [hpre]
  · intro hdry
    constructor
    · intro r t hpre
      unfold stepPreflight at hpre
      rw [hgit] at hpre
      simp only [Bool.not_true, Bool.false_eq_true, if_false, Bind.bind,
        Except.bind] at hpre
      rw [hdirty] at hpre
      dsimp only at hpre
      rw [hdry] at hpre
      simp only [Bool.not_true, Bool.and_false, Bool.false_eq_true,
        if_false] at hpre
      rcases h2 : changedFilesLoop env pkgs with e | t₂ <;>
        rw [h2] at hpre <;> dsimp only at hpre
      · cases hpre
      · rcases h3 : env.currentBranch with e | branch <;>
          rw [h3] at hpre <;> dsimp only at hpre
        · cases hpre
        · rcases h4 : env.fetchOk with e | u <;>
            rw [h4] at hpre <;> dsimp only at hpre
          · cases hpre
          · rcases h5 : env.isBehindRemote with e | b <;>
              rw [h5] at hpre <;> dsimp only at hpre
            · cases hpre
            · simp only [Except.ok.injEq, Prod.mk.injEq] at hpre
              obtain ⟨hr, ht⟩ := hpre
              subst hr
              subst ht
              refine ⟨by simp, ?_⟩
              intro e he
              exact List.mem_cons_of_mem _
                (List.mem_append_left _ (List.mem_append_left _ he))
    · intro c t hrel hc
      have := release_101_imp_not_dry env args ws_config ws_root pkgs c t
        hrel hc
      rw [hdry] at this
      cases this

/-- Witness for C7: a dirty tree under `envDirty` aborts the concrete
run with 101 after only the tool check and the dirtiness query. -/
theorem dirty_tree_abort_witness :
    release_packages envDirty {} {} 0 [basePkg] =
      .ok (101, [Effect.gitVersion, Effect.isDirty 2]) ∧
    ∀ e ∈ [Effect.gitVersion, Effect.isDirty 2], e.isMutation = false :=
  (dirty_tree_abort envDirty {} {} 0 [basePkg] [Effect.isDirty 2]
    rfl rfl).1 rfl

/-- C10: the confirmation step is skipped — no prompt, proceeding as if
confirmed — whenever dry-run or `--no-confirm` is active; when the prompt
does run and the user declines, the pipeline returns status 0 and its
trace is exactly the Preflight trace plus the prompt, so no later phase
performed any call. -/
theorem confirmation_skip_and_decline (env : Env) (args : ReleaseOpt)
    (pkgs : List PackageRelease) :
    (args.dry_run = true ∨ args.no_confirm = true →
      stepConfirm env args pkgs = (none, [])) ∧
    (args.dry_run = false → args.no_confirm = false → env.confirm = false →
      stepConfirm env args pkgs =
        (some 0, [Effect.confirmPrompt (buildPrompt pkgs)]) ∧
      ∀ ws_config ws_root t₀,
        stepPreflight env args ws_config ws_root pkgs = .ok (none, t₀) →
        release_packages env args ws_config ws_root pkgs =
          .ok (0, t₀ ++ [Effect.confirmPrompt (buildPrompt pkgs)])) := by
  constructor
  · intro hskip
    unfold stepConfirm
    rcases hskip with h | h <;> rw [h] <;> simp
  · intro hdry hnc hconf
    have hc : stepConfirm env args pkgs =
        (some 0, [Effect.confirmPrompt (buildPrompt pkgs)]) := by
      unfold stepConfirm
      rw [hdry, hnc, hconf]
      simp
    refine ⟨hc, ?_⟩
    intro ws_config ws_root t₀ hpre
    unfold release_packages
    simp only [Bind.bind, Except.bind]
    rw [hpre]
    dsimp only
    rw [hc]

/-- Witness for C10: with the user declining, the concrete single-package
run exits 0 right after Preflight and the prompt. -/
theorem confirmation_skip_and_decline_witness :
    stepConfirm envDecline {} [basePkg] =
      (some 0, [Effect.confirmPrompt (buildPrompt [basePkg])]) ∧
    release_packages envDecline {} {} 0 [basePkg] =
      .ok (0, [Effect.gitVersion, Effect.isDirty 2,
        Effect.changedFiles 2 "v1.0.0", Effect.fetch 0 "origin" "master",
        Effect.isBehindRemote 0 "origin" "master"] ++
        [Effect.confirmPrompt (buildPrompt [basePkg])]) := by
  have h := (confirmation_skip_and_decline envDecline {} [basePkg]).2 rfl rfl rfl
  exact ⟨h.1, h.2 {} 0 [Effect.gitVersion, Effect.isDirty 2,
    Effect.changedFiles 2 "v1.0.0", Effect.fetch 0 "origin" "master",
    Effect.isBehindRemote 0 "origin" "master"] rfl⟩

/-- The wrapper `git_tag` either fails fatally or returns a success flag together
with precisely one tag-creation record. -/
theorem git_tag_shape (env : Env) (dir : Nat) (name msg : String)
    (sign dry : Bool) :
    (∃ e, git_tag env dir name msg sign dry = .error e) ∨
    (∃ ok, git_tag env dir name msg sign dry =
      .ok (ok, [.tagCreate dir name msg sign dry])) := by
  unfold git_tag
  split
  · exact Or.inr ⟨true, rfl⟩
  · simp only [Bind.bind, Except.bind]
    rcases henv : env.tagOk name with e | b
    · exact Or.inl ⟨e, rfl⟩
    · exact Or.inr ⟨b, rfl⟩

/-- Every effect traced by the STEP 5 body for one package is a tag
creation for that package's tag name, signed with the disjunction of its
`sign_commit` and `sign_tag` settings. -/
theorem stepTagPkg_trace (env : Env) (args : ReleaseOpt)
    (pkg : PackageRelease) (r : Option Nat) (t : List Effect)
    (h : stepTagPkg env args pkg = .ok (r, t)) :
    ∀ e ∈ t, ∃ name msg, pkg.tag = some name ∧
      e = .tagCreate pkg.package_path name msg
        (pkg.config.sign_commit || pkg.config.sign_tag) args.dry_run := by
  unfold stepTagPkg at h
  rcases hv : pkg.tag with _ | name <;> rw [hv] at h <;> dsimp only at h
  · simp only [Except.ok.injEq, Prod.mk.injEq] at h
    obtain ⟨-, ht⟩ := h
    subst ht
    intro e he
    cases he
  · simp only [Bind.bind, Except.bind] at h
    rcases git_tag_shape env pkg.package_path name
        (env.render pkg.config.tag_message
          { prev_version := some (semverToString pkg.prev_version),
            version := some (semverToString (pkg.version.getD pkg.prev_version)),
            crate_name := some pkg.name,
            tag_name := some name,
            date := some env.now })
        (pkg.config.sign_commit || pkg.config.sign_tag) args.dry_run with
      ⟨e₀, hsh⟩ | ⟨okb, hsh⟩ <;> rw [hsh] at h <;> dsimp only at h
    · cases h
    · rcases okb with _ | _ <;>
        simp only [Bool.not_false, Bool.not_true, Bool.false_eq_true,
          if_true, if_false, reduceIte, Except.ok.injEq, Prod.mk.injEq] at h <;>
        obtain ⟨-, ht⟩ := h <;> subst ht <;> intro e he <;>
        rcases List.mem_singleton.mp he with rfl <;>
        exact ⟨name, _, rfl, rfl⟩

/-- C9: in the Tag phase, every tag the pipeline creates is signed with
the logical OR of the package's `sign_commit` and `sign_tag` settings —
enabling `sign-commit` alone still signs the tag. -/
theorem tag_sign_or (env : Env) (args : ReleaseOpt) :
    ∀ pkgs r t, stepTagLoop env args pkgs = .ok (r, t) →
      ∀ e ∈ t, ∃ pkg ∈ pkgs, ∃ name msg,
        pkg.tag = some name ∧
        e = .tagCreate pkg.package_path name msg
          (pkg.config.sign_commit || pkg.config.sign_tag) args.dry_run := by
  intro pkgs
  induction pkgs with
  | nil =>
    intro r t h
    simp only [stepTagLoop] at h
    obtain ⟨-, ht⟩ : none = r ∧ [] = t := by
      simpa [Prod.mk.injEq] using h
    subst ht
    intro e he
    cases he
  | cons pkg pkgs ih =>
    intro r t h
    simp only [stepTagLoop, Bind.bind, Except.bind] at h
    rcases h1 : stepTagPkg env args pkg with e₁ | ⟨r₁, t₁⟩ <;>
      rw [h1] at h <;> dsimp only at h
    · cases h
    · rcases r₁ with _ | c₁
      · dsimp only at h
        rcases h2 : stepTagLoop env args pkgs with e₂ | ⟨r₂, t₂⟩ <;>
          rw [h2] at h <;> dsimp only at h
        · cases h
        · simp only [Except.ok.injEq, Prod.mk.injEq] at h
          obtain ⟨-, ht⟩ := h
          subst ht
          intro e he
          rcases List.mem_append.mp he with he' | he'
          · obtain ⟨name, msg, hname, rfl⟩ :=
              stepTagPkg_trace env args pkg none t₁ h1 e he'
            exact ⟨pkg, List.mem_cons_self _ _, name, msg, hname, rfl⟩
          · obtain ⟨pkg', hmem, name, msg, hname, rfl⟩ := ih r₂ t₂ h2 e he'
            exact ⟨pkg', List.mem_cons_of_mem _ hmem, name, msg, hname, rfl⟩
      · simp only [Except.ok.injEq, Prod.mk.injEq] at h
        obtain ⟨-, ht⟩ := h
        subst ht
        intro e he
        obtain ⟨name, msg, hname, rfl⟩ :=
          stepTagPkg_trace env args pkg (some c₁) t₁ h1 e he
        exact ⟨pkg, List.mem_cons_self _ _, name, msg, hname, rfl⟩

/-- Witness for C9: a package with `sign-commit` alone enabled gets a
signed tag in the concrete Tag-phase run. -/
theorem tag_sign_or_witness :
    ∃ pkg ∈ [signPkg], ∃ name msg,
      pkg.tag = some name ∧
      Effect.tagCreate 2 "v2.0.0"
          "(cargo-release) \x7b\x7bcrate_name\x7d\x7d version \x7b\x7bversion\x7d\x7d" true false =
        Effect.tagCreate pkg.package_path name msg
          (pkg.config.sign_commit || pkg.config.sign_tag)
          ({} : ReleaseOpt).dry_run :=
  tag_sign_or envOk {} [signPkg] none
    [Effect.tagCreate 2 "v2.0.0"
      "(cargo-release) \x7b\x7bcrate_name\x7d\x7d version \x7b\x7bversion\x7d\x7d" true false] rfl
    _ (List.mem_singleton.mpr rfl)

/-- Counterexample to C1 as stated: in a concrete successful run, the
plan `pkgC1` has no `version` (no pending release) yet the pipeline still
invokes the registry publish and creates its tag. -/
theorem no_version_plan_publishes_counterexample :
    pkgC1.version = none ∧
    release_packages envOk argsNoConfirm {} 0 [pkgC1] = .ok (0,
      [Effect.gitVersion, Effect.isDirty 2,
       Effect.fetch 0 "origin" "master",
       Effect.isBehindRemote 0 "origin" "master",
       Effect.publish false 1 Features.None none none,
       Effect.waitForPublish "a" "1.0.0", Effect.graceSleep,
       Effect.tagCreate 2 "vtag"
         "(cargo-release) \x7b\x7bcrate_name\x7d\x7d version \x7b\x7bversion\x7d\x7d" false false,
       Effect.pushTag 2 "origin" "vtag" false,
       Effect.push 2 "origin" [] false]) ∧
    Effect.publish false 1 Features.None none none ∈
      [Effect.gitVersion, Effect.isDirty 2,
       Effect.fetch 0 "origin" "master",
       Effect.isBehindRemote 0 "origin" "master",
       Effect.publish false 1 Features.None none none,
       Effect.waitForPublish "a" "1.0.0", Effect.graceSleep,
       Effect.tagCreate 2 "vtag"
         "(cargo-release) \x7b\x7bcrate_name\x7d\x7d version \x7b\x7bversion\x7d\x7d" false false,
       Effect.pushTag 2 "origin" "vtag" false,
       Effect.push 2 "origin" [] false] ∧
    Effect.tagCreate 2 "vtag"
        "(cargo-release) \x7b\x7bcrate_name\x7d\x7d version \x7b\x7bversion\x7d\x7d" false false ∈
      [Effect.gitVersion, Effect.isDirty 2,
       Effect.fetch 0 "origin" "master",
       Effect.isBehindRemote 0 "origin" "master",
       Effect.publish false 1 Features.None none none,
       Effect.waitForPublish "a" "1.0.0", Effect.graceSleep,
       Effect.tagCreate 2 "vtag"
         "(cargo-release) \x7b\x7bcrate_name\x7d\x7d version \x7b\x7bversion\x7d\x7d" false false,
       Effect.pushTag 2 "origin" "vtag" false,
       Effect.push 2 "origin" [] false] := by
  refine ⟨rfl, rfl, ?_, ?_⟩ <;> simp

/-- The wrapper `cargo_publish` either fails fatally or returns a success flag with
precisely one publish record. -/
theorem cargo_publish_shape (env : Env) (dry : Bool) (manifest : Nat)
    (features : Features) (reg token : Option String) :
    (∃ e, cargo_publish env dry manifest features reg token = .error e) ∨
    (∃ ok, cargo_publish env dry manifest features reg token =
      .ok (ok, [.publish dry manifest features reg token])) := by
  unfold cargo_publish
  split
  · exact Or.inr ⟨true, rfl⟩
  · simp only [Bind.bind, Except.bind]
    rcases henv : env.publishOk manifest with e | b
    · exact Or.inl ⟨e, rfl⟩
    · exact Or.inr ⟨b, rfl⟩

/-- The wrapper `cargo_wait_for_publish` either fails fatally or succeeds with an
empty trace (dry-run) or the single index-poll record. -/
theorem cargo_wait_for_publish_shape (env : Env) (name version : String)
    (dry : Bool) :
    (∃ e, cargo_wait_for_publish env name version dry = .error e) ∨
    (∃ tw, cargo_wait_for_publish env name version dry = .ok ((), tw)) := by
  unfold cargo_wait_for_publish
  split
  · exact Or.inr ⟨[], rfl⟩
  · simp only [Bind.bind, Except.bind]
    rcases henv : env.waitForPublishOk name version with e | u
    · exact Or.inl ⟨e, rfl⟩
    · exact Or.inr ⟨[.waitForPublish name version], rfl⟩

/-- C1 (amended): a plan with no `version` never triggers the phase-3
version commit — its STEP 2 body is skipped entirely — but publish and
tag are not gated on a pending release: the Publish phase invokes the
registry publish exactly for the plans with publishing not disabled, and
the Tag phase creates a tag for every plan with a tag name, pending
release or not. -/
theorem no_version_plan_behaviour :
    (∀ env args ws_config pkg, pkg.version = none →
      stepCommitPkg env args ws_config pkg = .ok ((none, false), [])) ∧
    (∀ env args pkg r t, stepPublishPkg env args pkg = .ok (r, t) →
      ((∃ d m f reg tok, Effect.publish d m f reg tok ∈ t) ↔
        pkg.config.disable_publish = false)) ∧
    (∀ env args pkg name r t, pkg.tag = some name →
      stepTagPkg env args pkg = .ok (r, t) →
      ∃ msg s, Effect.tagCreate pkg.package_path name msg s args.dry_run ∈ t) := by
  refine ⟨?_, ?_, ?_⟩
  · intro env args ws_config pkg hv
    unfold stepCommitPkg
    rw [hv]
  · intro env args pkg r t h
    unfold stepPublishPkg at h
    rcases hd : pkg.config.disable_publish with _ | _ <;> rw [hd] at h
    · simp only [Bool.not_false, if_true, Bind.bind, Except.bind] at h
      rcases cargo_publish_shape env args.dry_run pkg.manifest_path
          pkg.features pkg.config.registry args.token with ⟨e₀, hsh⟩ | ⟨okb, hsh⟩ <;>
        rw [hsh] at h <;> dsimp only at h
      · cases h
      · rcases okb with _ | _ <;>
          simp only [Bool.not_false, Bool.not_true, Bool.false_eq_true,
            if_true, if_false, reduceIte] at h
        · simp only [Except.ok.injEq, Prod.mk.injEq] at h
          obtain ⟨-, ht⟩ := h
          subst ht
          exact ⟨fun _ => rfl, fun _ => ⟨_, _, _, _, _, List.mem_singleton.mpr rfl⟩⟩
        · split at h
          · rcases cargo_wait_for_publish_shape env pkg.name
                (semverToString (pkg.version.getD pkg.prev_version))
                args.dry_run with ⟨e₀, hsh₂⟩ | ⟨tw, hsh₂⟩ <;>
              rw [hsh₂] at h <;> dsimp only at h
            · cases h
            · simp only [Except.ok.injEq, Prod.mk.injEq] at h
              obtain ⟨-, ht⟩ := h
              subst ht
              refine ⟨fun _ => rfl, fun _ => ⟨args.dry_run,
                pkg.manifest_path, pkg.features, pkg.config.registry,
                args.token, ?_⟩⟩
              exact List.mem_append_left _
                (List.mem_append_left _ (List.mem_singleton.mpr rfl))
          · simp only [Except.ok.injEq, Prod.mk.injEq] at h
            obtain ⟨-, ht⟩ := h
            subst ht
            exact ⟨fun _ => rfl,
              fun _ => ⟨_, _, _, _, _, List.mem_singleton.mpr rfl⟩⟩
    · simp only [Bool.not_true, Bool.false_eq_true, if_false] at h
      simp only [Except.ok.injEq, Prod.mk.injEq] at h
      obtain ⟨-, ht⟩ := h
      subst ht
      constructor
      · rintro ⟨d, m, f, reg, tok, hmem⟩
        cases hmem
      · intro hcontra
        cases hcontra
  · intro env args pkg name r t hv h
    unfold stepTagPkg at h
    rw [hv] at h
    dsimp only at h
    simp only [Bind.bind, Except.bind] at h
    rcases git_tag_shape env pkg.package_path name
        (env.render pkg.config.tag_message
          { prev_version := some (semverToString pkg.prev_version),
            version := some (semverToString (pkg.version.getD pkg.prev_version)),
            crate_name := some pkg.name,
            tag_name := some name,
            date := some env.now })
        (pkg.config.sign_commit || pkg.config.sign_tag) args.dry_run with
      ⟨e₀, hsh⟩ | ⟨okb, hsh⟩ <;> rw [hsh] at h <;> dsimp only at h
    · cases h
    · rcases okb with _ | _ <;>
        simp only [Bool.not_false, Bool.not_true, Bool.false_eq_true,
          if_true, if_false, reduceIte, Except.ok.injEq, Prod.mk.injEq] at h <;>
        obtain ⟨-, ht⟩ := h <;> subst ht <;>
        exact ⟨_, _, List.mem_singleton.mpr rfl⟩

/-- Witness for the amended C1, on concrete inputs: `pkgC1`'s STEP 2 body
is a no-op, its Publish-phase run publishes (publishing enabled), and its
Tag-phase run creates the tag. -/
theorem no_version_plan_behaviour_witness :
    stepCommitPkg envOk argsNoConfirm {} pkgC1 = .ok ((none, false), []) ∧
    ((∃ d m f reg tok, Effect.publish d m f reg tok ∈
        [Effect.publish false 1 Features.None none none,
         Effect.waitForPublish "a" "1.0.0", Effect.graceSleep]) ↔
      pkgC1.config.disable_publish = false) ∧
    ∃ msg s, Effect.tagCreate pkgC1.package_path "vtag" msg s
        argsNoConfirm.dry_run ∈
      [Effect.tagCreate 2 "vtag"
        "(cargo-release) \x7b\x7bcrate_name\x7d\x7d version \x7b\x7bversion\x7d\x7d" false false] :=
  ⟨no_version_plan_behaviour.1 envOk argsNoConfirm {} pkgC1 rfl,
   no_version_plan_behaviour.2.1 envOk argsNoConfirm pkgC1 none
     [Effect.publish false 1 Features.None none none,
      Effect.waitForPublish "a" "1.0.0", Effect.graceSleep] rfl,
   no_version_plan_behaviour.2.2 envOk argsNoConfirm pkgC1 "vtag" none
     [Effect.tagCreate 2 "vtag"
       "(cargo-release) \x7b\x7bcrate_name\x7d\x7d version \x7b\x7bversion\x7d\x7d" false false]
     rfl rfl⟩

/-- C8's failing input: under consolidated commits, a failed
post-release-bump shared commit makes the pipeline exit with 102 — the
phase-3 commit-failure code — although the per-package post-bump commit
failure path returns the distinct code 105. -/
theorem post_bump_shared_commit_code :
    release_packages envC8 argsNoConfirm wsC8 0 [pkgC8] = .ok (102,
      [Effect.gitVersion, Effect.isDirty 0,
       Effect.fetch 0 "origin" "master",
       Effect.isBehindRemote 0 "origin" "master",
       Effect.setPackageVersion 1 "1.0.1-alpha", Effect.updateLock 1,
       Effect.commitAll 0
         "(cargo-release) start next development iteration \x7b\x7bversion\x7d\x7d"
         false false]) ∧ (102 : Nat) ≠ 105 := by
  exact ⟨rfl, by decide⟩

end CargoRelease
